import Mathlib

/-!
Verification of the scanner core of buger/jsonparser against its
natural-language specification.

The Go sources are shallowly embedded: byte buffers are lists of naturals,
Go's -1 sentinel results become Option, and every Go expression that can
panic (out-of-range index or slice) is modelled explicitly, with `none`
standing for a panic.  The embedding follows the current revision of
parser.go (the file src/unnamed/part_003, whose function signatures are the
ones the repository's own test files parser_test.go and parser_error_test.go
compile against); where an older revision of the same function differs it is
noted in the comments.  Loops are translated as fuel-indexed structural
recursions: the fuel counts remaining loop iterations, every wrapper supplies
fuel that provably dominates the iteration count, and the fuel-exhausted
branch reproduces the loop's natural exit whenever that exit is already
forced (otherwise it is `none`, which no reachable call hits).
-/

namespace JsonParser


/-- Whitespace bytes: space, line feed, carriage return, tab. -/
def isSpaceB (c : Nat) : Bool := c == 32 || c == 10 || c == 13 || c == 9

/-- Bytes terminating a bare value token: whitespace, comma, closing brace, closing bracket. -/
def isTermB (c : Nat) : Bool := isSpaceB c || c == 44 || c == 125 || c == 93

/-- Go slice operation data[s:e] (for s ≤ e within bounds; total here, callers
model the panic cases themselves where they can arise). -/
def extract (l : List Nat) (s e : Nat) : List Nat := (l.drop s).take (e - s)

/-- tokenEnd (src/unnamed/part_003, lines 27-36): index of the first byte that
terminates a bare value token, or the buffer length when no byte does (end of
input terminates the token).  An older revision, src/parser.go lines 27-36,
returned -1 in the latter case. -/
def tokenEnd : List Nat → Nat
  | [] => 0
  | c :: rest => if isTermB c then 0 else tokenEnd rest + 1

/-- nextToken (src/unnamed/part_003, lines 39-50): position of the first
non-whitespace byte; `none` models Go's -1. -/
def nextToken : List Nat → Option Nat
  | [] => none
  | c :: rest => if isSpaceB c then (nextToken rest).map (· + 1) else some 0

/-- Length of the run of consecutive backslash bytes immediately before
index i.  This is what the inner backward walk of stringEnd (lines 61-72)
measures: that walk reports "even" exactly when this count is even. -/
def bsRun (data : List Nat) : Nat → Nat
  | 0 => 0
  | i + 1 => if data.getD i 0 == 92 then bsRun data i + 1 else 0

/-- Loop of stringEnd (src/unnamed/part_003, lines 54-80).  State: position i,
escaped flag.  The fuel dominates the number of iterations (one per byte). -/
def stringEndGo (data : List Nat) : Nat → Nat → Bool → Option Nat × Bool
  | 0, _, esc => (none, esc)
  | fuel + 1, i, esc =>
    match data.get? i with
    | none => (none, esc)
    | some c =>
      if c == 34 then
        if !esc then (some (i + 1), false)
        else if bsRun data i % 2 == 0 then (some (i + 1), true)
        else stringEndGo data fuel (i + 1) esc
      else if c == 92 then stringEndGo data fuel (i + 1) true
      else stringEndGo data fuel (i + 1) esc

/-- stringEnd (src/unnamed/part_003, lines 54-80): one past the closing quote
of a string whose content starts at index 0, plus the escaped flag; the first
component is `none` for Go's -1. -/
def stringEnd (data : List Nat) : Option Nat × Bool :=
  stringEndGo data data.length 0 false

/-- Loop of blockEnd (src/unnamed/part_003, lines 84-111).  State: position i,
nesting level. -/
def blockEndGo (data : List Nat) (openS closeS : Nat) : Nat → Nat → Int → Option Nat
  | 0, _, _ => none
  | fuel + 1, i, level =>
    match data.get? i with
    | none => none
    | some c =>
      if c == 34 then
        match (stringEnd (data.drop (i + 1))).1 with
        | none => none
        | some se => blockEndGo data openS closeS fuel (i + se + 1) level
      else if c == openS then blockEndGo data openS closeS fuel (i + 1) (level + 1)
      else if c == closeS then
        if level - 1 == 0 then some (i + 1)
        else blockEndGo data openS closeS fuel (i + 1) (level - 1)
      else blockEndGo data openS closeS fuel (i + 1) level

/-- blockEnd (src/unnamed/part_003, lines 84-111): one past the closing symbol
matching the opening symbol at index 0, skipping strings; `none` for Go's -1. -/
def blockEnd (data : List Nat) (openS closeS : Nat) : Option Nat :=
  blockEndGo data openS closeS data.length 0 0

/-- Data types available in valid JSON data (src/unnamed/part_003, lines 408-420). -/
inductive ValueType where
  | NotExist
  | String
  | Number
  | Object
  | Array
  | Boolean
  | Null
  | Unknown
  deriving Repr, DecidableEq

/-- Error values of the package (src/unnamed/part_003, lines 12-21). -/
inductive Err where
  | KeyPathNotFound
  | UnknownValueType
  | MalformedJson
  | MalformedString
  | MalformedArray
  | MalformedObject
  | MalformedValue
  | MalformedStringEscape
  deriving Repr, DecidableEq

/-- Result quadruple of get: value bytes, type tag, end offset (-1 on some
errors), error.  The same shape is reused to record one visitor invocation of
ArrayEach, whose callback receives exactly such a quadruple. -/
structure GetRes where
  value : List Nat
  dataType : ValueType
  offset : Int
  err : Option Err
  deriving Repr, DecidableEq

def trueLit : List Nat := [116, 114, 117, 101]
def falseLit : List Nat := [102, 97, 108, 115, 101]
def nullLit : List Nat := [110, 117, 108, 108]

/-- Body of get after path resolution (src/unnamed/part_003, lines 466-554,
with getfix = false as the exported Get uses): classify and delimit the value
whose scan starts at absolute position off of data.  The source's check of
tokenEnd against -1 (line 514) is dead code with the current tokenEnd, which
returns the buffer length instead, and is therefore not represented. -/
def getFrom (data : List Nat) (off : Nat) : GetRes :=
  match nextToken (data.drop off) with
  | none => ⟨[], .NotExist, -1, some .MalformedJson⟩
  | some nO =>
    let offset := off + nO
    let c := data.getD offset 0
    if c == 34 then
      match (stringEnd (data.drop (offset + 1))).1 with
      | some idx =>
        ⟨extract data (offset + 1) (offset + idx), .String, ((offset + idx + 1 : Nat) : Int), none⟩
      | none => ⟨[], .String, (offset : Int), some .MalformedString⟩
    else if c == 91 then
      match blockEnd (data.drop offset) 91 93 with
      | some be => ⟨extract data offset (offset + be), .Array, ((offset + be : Nat) : Int), none⟩
      | none => ⟨[], .Array, (offset : Int), some .MalformedArray⟩
    else if c == 123 then
      match blockEnd (data.drop offset) 123 125 with
      | some be => ⟨extract data offset (offset + be), .Object, ((offset + be : Nat) : Int), none⟩
      | none => ⟨[], .Object, (offset : Int), some .MalformedObject⟩
    else
      let e := tokenEnd (data.drop offset)
      let constant := extract data offset (offset + e)
      if c == 116 || c == 102 then
        if constant == trueLit || constant == falseLit then
          ⟨constant, .Boolean, ((offset + e : Nat) : Int), none⟩
        else ⟨[], .Unknown, (offset : Int), some .UnknownValueType⟩
      else if c == 117 || c == 110 then
        if constant == nullLit then ⟨[], .Null, ((offset + e : Nat) : Int), none⟩
        else ⟨[], .Unknown, (offset : Int), some .UnknownValueType⟩
      else if (48 ≤ c && c ≤ 57) || c == 45 then
        ⟨constant, .Number, ((offset + e : Nat) : Int), none⟩
      else ⟨[], .Unknown, (offset : Int), some .UnknownValueType⟩

/-- get with an empty path (the only way ArrayEach and the index branch of
searchKeys invoke it): classify the nearest value of the whole buffer. -/
def get0 (data : List Nat) : GetRes := getFrom data 0

def isDigitB (c : Nat) : Bool := 48 ≤ c && c ≤ 57

/-- Value of one hexadecimal digit byte, if it is one. -/
def hexVal (c : Nat) : Option Nat :=
  if 48 ≤ c && c ≤ 57 then some (c - 48)
  else if 97 ≤ c && c ≤ 102 then some (c - 87)
  else if 65 ≤ c && c ≤ 70 then some (c - 55)
  else none

/-- Value of four hexadecimal digit bytes. -/
def hex4 : List Nat → Option Nat
  | a :: b :: c :: d :: _ =>
    match hexVal a, hexVal b, hexVal c, hexVal d with
    | some va, some vb, some vc, some vd => some (va * 4096 + vb * 256 + vc * 16 + vd)
    | _, _, _, _ => none
  | _ => none

/-- UTF-8 encoding of one code point. -/
def utf8Encode (cp : Nat) : List Nat :=
  if cp < 128 then [cp]
  else if cp < 2048 then [192 + cp / 64, 128 + cp % 64]
  else if cp < 65536 then [224 + cp / 4096, 128 + cp / 64 % 64, 128 + cp % 64]
  else [240 + cp / 262144, 128 + cp / 4096 % 64, 128 + cp / 64 % 64, 128 + cp % 64]

/-- Loop of the string-escape decoder, with fuel dominating the number of
decoding steps. -/
def unescapeGo : Nat → List Nat → Option (List Nat)
  | _, [] => some []
  | 0, _ :: _ => none
  | fuel + 1, c :: rest =>
    if c == 92 then
      match rest with
      | [] => none
      | e :: rest2 =>
        if e == 34 then (unescapeGo fuel rest2).map (34 :: ·)
        else if e == 92 then (unescapeGo fuel rest2).map (92 :: ·)
        else if e == 47 then (unescapeGo fuel rest2).map (47 :: ·)
        else if e == 98 then (unescapeGo fuel rest2).map (8 :: ·)
        else if e == 102 then (unescapeGo fuel rest2).map (12 :: ·)
        else if e == 110 then (unescapeGo fuel rest2).map (10 :: ·)
        else if e == 114 then (unescapeGo fuel rest2).map (13 :: ·)
        else if e == 116 then (unescapeGo fuel rest2).map (9 :: ·)
        else if e == 117 then
          match hex4 rest2 with
          | none => none
          | some cp =>
            if 55296 ≤ cp && cp ≤ 56319 then
              match rest2.drop 4 with
              | 92 :: 117 :: rest3 =>
                match hex4 rest3 with
                | none => none
                | some cp2 =>
                  if 56320 ≤ cp2 && cp2 ≤ 57343 then
                    (unescapeGo fuel (rest3.drop 4)).map
                      (utf8Encode (65536 + (cp - 55296) * 1024 + (cp2 - 56320)) ++ ·)
                  else none
              | _ => none
            else if 56320 ≤ cp && cp ≤ 57343 then none
            else (unescapeGo fuel (rest2.drop 4)).map (utf8Encode cp ++ ·)
        else none
    else (unescapeGo fuel rest).map (c :: ·)

/-- Modelled from the spec: the string-escape decoder Unescape lives in a
source file (escape.go) that is not under src/; section 4.7 of the spec
defines it.  Supported escapes are the two-character ones and \uXXXX with
surrogate-pair handling; any other escape, invalid hex digits, or an
unpaired surrogate is an invalid-escape error (`none`). -/
def unescape (s : List Nat) : Option (List Nat) := unescapeGo s.length s

/-- Modelled from the spec: equalStr compares an unescaped key with a path
segment; in this byte-list embedding both sides are byte lists and the
comparison is equality of the byte sequences. -/
def equalStr (a b : List Nat) : Bool := a == b

/-- strconv.Atoi with its error discarded, as the index branch of searchKeys
uses it (src/unnamed/part_003, line 181): syntax errors leave the zero value,
range errors leave the clamped extreme that ParseInt returns. -/
def atoiIgn (s : List Nat) : Int :=
  let core := fun (neg : Bool) (ds : List Nat) =>
    if ds.isEmpty || !ds.all isDigitB then (0 : Int)
    else
      let v : Nat := ds.foldl (fun a c => a * 10 + (c - 48)) 0
      if neg then
        if (v : Int) > 9223372036854775808 then (-9223372036854775808 : Int) else -(v : Int)
      else
        if (v : Int) > 9223372036854775807 then (9223372036854775807 : Int) else (v : Int)
  match s with
  | [] => 0
  | c :: rest =>
    if c == 45 then core true rest
    else if c == 43 then core false rest
    else core false s

/-- Loop of arrayEach (src/unnamed/part_003, lines 588-624) over a buffer whose
element scan starts at `offset`; keys have already been resolved by the
wrapper.  Records each visitor invocation as a GetRes whose offset field is
the argument `offset+o-len(v)` passed to the callback (line 600).  The result
carries the recorded calls, the returned offset and the returned error; `none`
models a panic.  Every iteration advances `offset` by at least two, so fuel
`data.length + 1` is never exhausted from the wrappers. -/
def arrayEachLoop (data : List Nat) : Nat → Int → List GetRes → Option (List GetRes × Int × Option Err)
  | 0, _, _ => none
  | fuel + 1, offset, acc =>
    if offset < 0 || (data.length : Int) < offset then none
    else
      let r := get0 (data.drop offset.toNat)
      if r.offset == 0 then some (acc.reverse, offset, none)
      else if r.err.isSome then some (acc.reverse, offset, r.err)
      else
        let acc' := if r.dataType != .NotExist then
            (⟨r.value, r.dataType, offset + r.offset - r.value.length, r.err⟩ : GetRes) :: acc
          else acc
        let off2 := offset + r.offset
        if off2 < 0 || (data.length : Int) < off2 then none
        else
          match nextToken (data.drop off2.toNat) with
          | none => some (acc'.reverse, off2, some .MalformedArray)
          | some skip =>
            let off3 := off2 + skip
            if data.getD off3.toNat 0 == 93 then some (acc'.reverse, off3, none)
            else if data.getD off3.toNat 0 != 44 then some (acc'.reverse, off3, some .MalformedArray)
            else arrayEachLoop data fuel (off3 + 1) acc'

/-- arrayEach with no path (src/unnamed/part_003, lines 561-566 and the loop),
which is how the index branch of searchKeys and the array branch of eachKey
invoke it: refuse empty input, then iterate from position 1. -/
def arrayEach0 (data : List Nat) : Option (List GetRes × Int × Option Err) :=
  if data.length == 0 then some ([], -1, some .MalformedObject)
  else arrayEachLoop data (data.length + 1) 1 []

/-- Loop of searchKeys (src/unnamed/part_003, lines 126-211).  State: position
i, keyLevel and level as in the source (Go ints, so they may go negative).
`recur` is the recursive searchKeys call of the index branch (line 198),
instantiated by searchKeysD with a smaller depth fuel; `none` models a panic
(the source indexes keys[level], curKey[0], curKey[1:len-1] and keys[level-1]
without bounds checks; keys[level-1] is an argument of equalStr at line 160,
so an Unescape failure at line 155 returns -1 before that index is ever
evaluated).  When the scan fuel reaches zero the position has
provably reached the end of the buffer whenever the wrapper's fuel is used,
and the loop's natural exit (-1) is returned. -/
def searchKeysGo (recur : List Nat → List (List Nat) → Option Int)
    (data : List Nat) (keys : List (List Nat)) :
    Nat → Nat → Int → Int → Option Int
  | 0, i, _, _ => if data.length ≤ i then some (-1) else none
  | fuel + 1, i, keyLevel, level =>
    match data.get? i with
    | none => some (-1)
    | some c =>
      if c == 34 then
        let se := stringEnd (data.drop (i + 1))
        match se.1 with
        | none => some (-1)
        | some strEnd =>
          let i2 := i + 1 + strEnd
          let keyEnd := i2 - 1
          match nextToken (data.drop i2) with
          | none => some (-1)
          | some vo =>
            let i3 := i2 + vo
            if data.getD i3 0 == 58 && keyLevel == level - 1 then
              let key := extract data (i + 1) keyEnd
              match (if se.2 then unescape key else some key) with
              | none => some (-1)
              | some keyUnesc =>
                if level - 1 < 0 || (keys.length : Int) ≤ level - 1 then none
                else if equalStr keyUnesc (keys.getD (level - 1).toNat []) then
                  if keyLevel + 1 == (keys.length : Int) then some ((i3 : Int) + 1)
                  else searchKeysGo recur data keys fuel (i3 + 1) (keyLevel + 1) level
                else searchKeysGo recur data keys fuel (i3 + 1) keyLevel level
            else searchKeysGo recur data keys fuel i3 keyLevel level
      else if c == 123 then searchKeysGo recur data keys fuel (i + 1) keyLevel (level + 1)
      else if c == 125 then
        if level - 1 == keyLevel then
          searchKeysGo recur data keys fuel (i + 1) (keyLevel - 1) (level - 1)
        else searchKeysGo recur data keys fuel (i + 1) keyLevel (level - 1)
      else if c == 91 then
        if keyLevel == level then
          if level < 0 || (keys.length : Int) ≤ level then none
          else
            match keys.getD level.toNat [] with
            | [] => none
            | c0 :: restKey =>
              if c0 == 91 then
                if restKey.length == 0 then none
                else
                  let curKey := c0 :: restKey
                  let aIdx := atoiIgn (extract curKey 1 (curKey.length - 1))
                  match arrayEach0 (data.drop i) with
                  | none => none
                  | some (calls, _, _) =>
                    if aIdx < 0 || (calls.length : Int) ≤ aIdx then some (-1)
                    else
                      let cc := calls.getD aIdx.toNat ⟨[], .NotExist, 0, none⟩
                      match recur cc.value (keys.drop (level.toNat + 1)) with
                      | none => none
                      | some r => some ((i : Int) + cc.offset + r)
              else
                match blockEnd (data.drop i) 91 93 with
                | none => some (-1)
                | some sk => searchKeysGo recur data keys fuel (i + sk) keyLevel level
        else
          match blockEnd (data.drop i) 91 93 with
          | none => some (-1)
          | some sk => searchKeysGo recur data keys fuel (i + sk) keyLevel level
      else searchKeysGo recur data keys fuel (i + 1) keyLevel level

/-- searchKeys with a depth fuel bounding the nesting of the recursive call of
the index branch; the recursion always drops at least one leading path
segment, so depth keys.length + 1 (supplied by searchKeys) never exhausts. -/
def searchKeysD : Nat → List Nat → List (List Nat) → Option Int
  | 0, _, _ => none
  | d + 1, data, keys =>
    if keys.length == 0 then some 0
    else searchKeysGo (searchKeysD d) data keys data.length 0 0 0

/-- searchKeys (src/unnamed/part_003, lines 113-214): absolute offset of the
byte after the colon introducing the addressed value, some (-1) for "not
found", `none` for a panic. -/
def searchKeys (data : List Nat) (keys : List (List Nat)) : Option Int :=
  searchKeysD (keys.length + 1) data keys

/-- get (src/unnamed/part_003, lines 462-471 and getFrom): resolve the path,
then classify the value at the resulting offset.  A searchKeys result outside
[0, len] other than -1 would make the source slice data[offset:] panic. -/
def get (data : List Nat) (keys : List (List Nat)) : Option GetRes :=
  if keys.length > 0 then
    match searchKeys data keys with
    | none => none
    | some off =>
      if off == -1 then some ⟨[], .NotExist, -1, some .KeyPathNotFound⟩
      else if off < 0 || (data.length : Int) < off then none
      else some (getFrom data off.toNat)
  else some (getFrom data 0)

/-- ArrayEach (src/unnamed/part_003, lines 557-627): the full entry point with
an optional path prefix.  Result: recorded visitor calls, returned offset,
returned error; `none` models a panic. -/
def arrayEach (data : List Nat) (keys : List (List Nat)) : Option (List GetRes × Int × Option Err) :=
  if data.length == 0 then some ([], -1, some .MalformedObject)
  else if keys.length > 0 then
    match searchKeys data keys with
    | none => none
    | some off =>
      if off == -1 then some ([], off, some .KeyPathNotFound)
      else if off < 0 || (data.length : Int) < off then none
      else
        match nextToken (data.drop off.toNat) with
        | none => some ([], off, some .MalformedJson)
        | some nO =>
          let off2 := off + nO
          if data.getD off2.toNat 0 != 91 then some ([], off2, some .MalformedArray)
          else arrayEachLoop data (data.length + 1) (off2 + 1) []
  else arrayEachLoop data (data.length + 1) 1 []

/-- bitwiseFlags (src/unnamed/part_003, lines 216-222): 63 powers of two, one
bit per path of EachKey.  The init loop computes them through math.Pow, which
is exact for these exponents. -/
def bitwiseFlags : List Nat := (List.range 63).map (2 ^ ·)

/-- sameTree (src/unnamed/part_003, lines 224-237): the two paths agree on
their common prefix. -/
def sameTree (p1 p2 : List (List Nat)) : Bool :=
  let minLen := min p1.length p2.length
  p1.take minLen == p2.take minLen

/-- Record of one callback invocation of EachKey: path index, value bytes,
type tag, error. -/
structure EKCall where
  pi : Nat
  value : List Nat
  dataType : ValueType
  err : Option Err
  deriving Repr, DecidableEq

/-- Inner loop of eachKey over the path list at a key (src/unnamed/part_003,
lines 299-320).  State: current position i, path flags, matched count, the
match variable (-1 when no path matched yet) and recorded calls.  Returns the
final state (inl) or the early full-match return (inr), with `none` for a
panic (the source evaluates bitwiseFlags[pi+1] for every path of the right
length, and slices data[i:] after advancing i). -/
def ekPiLoop (data : List Nat) (total : Nat) (level : Int) (keyUnesc : List Nat)
    (bufCut : List (List Nat)) :
    List (List (List Nat)) → Nat → Nat → Nat → Nat → Int → List EKCall →
    Option ((Nat × Nat × Nat × Int × List EKCall) ⊕ (List EKCall × Int))
  | [], _, i, flags, matched, mtch, acc => some (.inl (i, flags, matched, mtch, acc))
  | p :: rest, pi, i, flags, matched, mtch, acc =>
    if (p.length : Int) != level then
      ekPiLoop data total level keyUnesc bufCut rest (pi + 1) i flags matched mtch acc
    else
      match bitwiseFlags.get? (pi + 1) with
      | none => none
      | some bf =>
        if flags &&& bf != 0 then
          ekPiLoop data total level keyUnesc bufCut rest (pi + 1) i flags matched mtch acc
        else if !equalStr keyUnesc (p.getD (level - 1).toNat []) then
          ekPiLoop data total level keyUnesc bufCut rest (pi + 1) i flags matched mtch acc
        else if !sameTree p bufCut then
          ekPiLoop data total level keyUnesc bufCut rest (pi + 1) i flags matched mtch acc
        else
          let i' := i + 1
          if data.length < i' then none
          else
            let r := get0 (data.drop i')
            let acc' := (⟨pi, r.value, r.dataType, r.err⟩ : EKCall) :: acc
            let flags' := flags ||| bf
            let matched' := matched + 1
            let i'' := if r.offset != -1 then ((i' : Int) + r.offset).toNat else i'
            if matched' == total then some (.inr (acc', (i'' : Int)))
            else ekPiLoop data total level keyUnesc bufCut rest (pi + 1) i'' flags' matched' (pi : Int) acc'

/-- Pre-scan of the path list at an opening bracket (src/unnamed/part_003,
lines 345-355): collect the bit masks of expected element indices and of the
paths expecting them; `none` models the panics (bitwiseFlags[pi+1] and
bitwiseFlags[aIdx+1] out of range, p[level] with a negative level or an empty
segment, the slice p[level][1:0] when the segment is a lone bracket). -/
def ekArrPre (flags : Nat) (level : Int) (bufCut : List (List Nat)) :
    List (List (List Nat)) → Nat → Nat → Nat → Option (Nat × Nat)
  | [], _, arrF, pF => some (arrF, pF)
  | p :: rest, pi, arrF, pF =>
    if (p.length : Int) < level + 1 then ekArrPre flags level bufCut rest (pi + 1) arrF pF
    else
      match bitwiseFlags.get? (pi + 1) with
      | none => none
      | some bf =>
        if flags &&& bf != 0 then ekArrPre flags level bufCut rest (pi + 1) arrF pF
        else if level < 0 then none
        else
          match p.getD level.toNat [] with
          | [] => none
          | c0 :: restSeg =>
            if c0 != 91 then ekArrPre flags level bufCut rest (pi + 1) arrF pF
            else if !sameTree p bufCut then ekArrPre flags level bufCut rest (pi + 1) arrF pF
            else if restSeg.length == 0 then none
            else
              let seg := c0 :: restSeg
              let aIdx := atoiIgn (extract seg 1 (seg.length - 1))
              if aIdx + 1 < 0 then none
              else
                match bitwiseFlags.get? (aIdx + 1).toNat with
                | none => none
                | some af => ekArrPre flags level bufCut rest (pi + 1) (arrF ||| af) (pF ||| bf)

/-- Inner path loop of the ArrayEach closure of eachKey (src/unnamed/part_003,
lines 363-379), for one element value at index curIdx, with level already
incremented.  `recur` is searchKeys.  State: path flags, matched count,
recorded calls. -/
def ekClosePi (recur : List Nat → List (List Nat) → Option Int)
    (value : List Nat) (curIdx : Nat) (pF : Nat) (level : Int) :
    List (List (List Nat)) → Nat → Nat → Nat → List EKCall →
    Option (Nat × Nat × List EKCall)
  | [], _, flags, matched, acc => some (flags, matched, acc)
  | p :: rest, pi, flags, matched, acc =>
    match bitwiseFlags.get? (pi + 1) with
    | none => none
    | some bf =>
      if pF &&& bf == 0 then ekClosePi recur value curIdx pF level rest (pi + 1) flags matched acc
      else
        match p.getD (level - 1).toNat [] with
        | [] => none
        | c0 :: restSeg =>
          if restSeg.length == 0 then none
          else
            let seg := c0 :: restSeg
            let aIdx := atoiIgn (extract seg 1 (seg.length - 1))
            if (curIdx : Int) != aIdx then
              ekClosePi recur value curIdx pF level rest (pi + 1) flags matched acc
            else
              match recur value (p.drop level.toNat) with
              | none => none
              | some of =>
                let matched' := matched + 1
                let flags' := flags ||| bf
                if of != -1 then
                  if of < 0 || (value.length : Int) < of then none
                  else
                    let r := get0 (value.drop of.toNat)
                    ekClosePi recur value curIdx pF level rest (pi + 1) flags' matched'
                      ((⟨pi, r.value, r.dataType, r.err⟩ : EKCall) :: acc)
                else ekClosePi recur value curIdx pF level rest (pi + 1) flags' matched' acc

/-- Fold of the ArrayEach closure of eachKey over the visited elements
(src/unnamed/part_003, lines 361-383): bitwiseFlags[curIdx+1] is evaluated for
every element, so more than 62 elements panic. -/
def ekCloseElems (recur : List Nat → List (List Nat) → Option Int)
    (paths : List (List (List Nat))) (arrF pF : Nat) (level : Int) :
    List GetRes → Nat → Nat → Nat → List EKCall → Option (Nat × Nat × List EKCall)
  | [], _, flags, matched, acc => some (flags, matched, acc)
  | cc :: rest, curIdx, flags, matched, acc =>
    match bitwiseFlags.get? (curIdx + 1) with
    | none => none
    | some cf =>
      if arrF &&& cf == 0 then ekCloseElems recur paths arrF pF level rest (curIdx + 1) flags matched acc
      else
        match ekClosePi recur cc.value curIdx pF level paths 0 flags matched acc with
        | none => none
        | some (flags', matched', acc') =>
          ekCloseElems recur paths arrF pF level rest (curIdx + 1) flags' matched' acc'

/-- Loop of eachKey (src/unnamed/part_003, lines 259-405).  State: position i,
object depth level, path flags, matched count, the key-name buffer pathsBuf
and the recorded calls.  `none` models a panic; the fuel dominates the
iteration count as every iteration advances i. -/
def eachKeyGo (data : List Nat) (paths : List (List (List Nat))) (maxPath : Nat) :
    Nat → Nat → Int → Nat → Nat → List (List Nat) → List EKCall →
    Option (List EKCall × Int)
  | 0, i, _, _, _, _, acc => if data.length ≤ i then some (acc.reverse, -1) else none
  | fuel + 1, i, level, flags, matched, pathsBuf, acc =>
    match data.get? i with
    | none => some (acc.reverse, -1)
    | some c =>
      if c == 34 then
        let se := stringEnd (data.drop (i + 1))
        match se.1 with
        | none => some (acc.reverse, -1)
        | some strEnd =>
          let i2 := i + 1 + strEnd
          let keyEnd := i2 - 1
          match nextToken (data.drop i2) with
          | none => some (acc.reverse, -1)
          | some vo =>
            let i3 := i2 + vo
            if data.getD i3 0 == 58 then
              let key := extract data (i + 1) keyEnd
              match (if se.2 then unescape key else some key) with
              | none => some (acc.reverse, -1)
              | some keyUnesc =>
                let step :=
                  if (maxPath : Int) ≥ level then
                    if level - 1 < 0 then none
                    else
                      let pathsBuf' := pathsBuf.set (level - 1).toNat keyUnesc
                      match ekPiLoop data paths.length level keyUnesc
                          (pathsBuf'.take level.toNat) paths 0 i3 flags matched (-1) acc with
                      | none => none
                      | some st => some (pathsBuf', st)
                  else some (pathsBuf, .inl (i3, flags, matched, -1, acc))
                match step with
                | none => none
                | some (_, .inr (acc', iRet)) => some (acc'.reverse, iRet)
                | some (pathsBuf', .inl (i4, flags', matched', mtch', acc')) =>
                  let afterSkip : Option Int :=
                    if mtch' == -1 then
                      if data.length < i4 + 1 then none
                      else
                        let iE : Int := (i4 : Int) +
                          (match nextToken (data.drop (i4 + 1)) with
                           | none => -1
                           | some t => (t : Int))
                        if iE < 0 || (data.length : Int) ≤ iE then none
                        else if data.getD iE.toNat 0 == 123 then
                          match blockEnd (data.drop iE.toNat) 123 125 with
                          | none => some iE
                          | some bs => some (iE + bs + 1)
                        else some iE
                    else some (i4 : Int)
                  match afterSkip with
                  | none => none
                  | some iF =>
                    if iF < 0 || (data.length : Int) ≤ iF then none
                    else
                      let c2 := data.getD iF.toNat 0
                      let iG : Int :=
                        if c2 == 123 || c2 == 125 || c2 == 91 || c2 == 34 then iF - 1 else iF
                      eachKeyGo data paths maxPath fuel (iG + 1).toNat level flags' matched' pathsBuf' acc'
            else eachKeyGo data paths maxPath fuel i3 level flags matched pathsBuf acc
      else if c == 123 then eachKeyGo data paths maxPath fuel (i + 1) (level + 1) flags matched pathsBuf acc
      else if c == 125 then eachKeyGo data paths maxPath fuel (i + 1) (level - 1) flags matched pathsBuf acc
      else if c == 91 then
        match ekArrPre flags level (pathsBuf.take level.toNat) paths 0 0 0 with
        | none => none
        | some (arrF, pF) =>
          if arrF > 0 then
            let level' := level + 1
            match arrayEach0 (data.drop i) with
            | none => none
            | some (calls, arrOff, _) =>
              match ekCloseElems searchKeys paths arrF pF level' calls 0 flags matched acc with
              | none => none
              | some (flags', matched', acc') =>
                if matched' == paths.length then some (acc'.reverse, (i : Int))
                else
                  if (i : Int) + arrOff < 0 then none
                  else eachKeyGo data paths maxPath fuel ((i : Int) + arrOff).toNat level' flags' matched' pathsBuf acc'
          else
            match blockEnd (data.drop i) 91 93 with
            | none => some (acc.reverse, -1)
            | some sk => eachKeyGo data paths maxPath fuel (i + sk) level flags matched pathsBuf acc
      else if c == 93 then eachKeyGo data paths maxPath fuel (i + 1) (level - 1) flags matched pathsBuf acc
      else eachKeyGo data paths maxPath fuel (i + 1) level flags matched pathsBuf acc

/-- EachKey (src/unnamed/part_003, lines 239-406, with getfix = false as the
exported EachKey uses): single-pass resolution of a list of paths.  The result
is the list of callback invocations in order together with the returned int;
`none` models a panic. -/
def eachKey (data : List Nat) (paths : List (List (List Nat))) : Option (List EKCall × Int) :=
  let maxPath := paths.foldl (fun m p => max m p.length) 0
  eachKeyGo data paths maxPath data.length 0 0 0 0 (List.replicate maxPath []) []

/-! ## Specification-side notions

The spec quantifies over well-formed documents; the claims about searchKeys,
ArrayEach and EachKey are therefore stated over an abstract JSON value type
and its canonical serialization (no interior whitespace, strings without
escape sequences). -/

/-- Closing-quote predicate of the spec (section 4.1): a quote is closing iff
it is preceded by an even number of consecutive backslashes. -/
def IsClosing (s : List Nat) (i : Nat) : Prop :=
  s[i]? = some 34 ∧ bsRun s i % 2 = 0

instance (s : List Nat) (i : Nat) : Decidable (IsClosing s i) := by
  unfold IsClosing; infer_instance

/-- Bytes that play no structural role for the scanner: not a quote,
backslash, brace, bracket, colon, comma or whitespace. -/
def plainB (c : Nat) : Bool :=
  !(c == 34 || c == 92 || c == 123 || c == 125 || c == 91 || c == 93 || c == 58 || c == 44) &&
  !isSpaceB c

/-- String contents without quotes or backslashes (so no escape sequences). -/
def strOKB (bs : List Nat) : Bool := bs.all (fun c => c != 34 && c != 92)

/-- Bare scalar tokens the classifier accepts: the three literals, or a
number-like run starting with a digit or minus made of plain bytes. -/
def scalOKB (bs : List Nat) : Bool :=
  bs == trueLit || bs == falseLit || bs == nullLit ||
  (!bs.isEmpty && (isDigitB (bs.headD 0) || bs.headD 0 == 45) && bs.all plainB)

/-- Abstract JSON values for quantifying over well-formed documents. -/
inductive Jv : Type where
  | scal (bs : List Nat)
  | str (bs : List Nat)
  | arr (els : List Jv)
  | obj (mems : List (List Nat × Jv))
  deriving Repr

mutual
/-- Canonical serialization: no interior whitespace, comma-separated members
and elements. -/
def ser : Jv → List Nat
  | .scal bs => bs
  | .str bs => 34 :: (bs ++ [34])
  | .arr els => 91 :: (serEls els ++ [93])
  | .obj mems => 123 :: (serMems mems ++ [125])

def serEls : List Jv → List Nat
  | [] => []
  | [v] => ser v
  | v :: w :: rest => ser v ++ 44 :: serEls (w :: rest)

def serMems : List (List Nat × Jv) → List Nat
  | [] => []
  | [(k, v)] => 34 :: (k ++ [34, 58]) ++ ser v
  | (k, v) :: m :: rest => (34 :: (k ++ [34, 58]) ++ ser v) ++ 44 :: serMems (m :: rest)
end

mutual
/-- Well-formedness of an abstract value: plain scalar tokens, escape-free
strings and keys. -/
def wfJ : Jv → Bool
  | .scal bs => scalOKB bs
  | .str bs => strOKB bs
  | .arr els => wfEls els
  | .obj mems => wfMems mems

def wfEls : List Jv → Bool
  | [] => true
  | v :: rest => wfJ v && wfEls rest

def wfMems : List (List Nat × Jv) → Bool
  | [] => true
  | (k, v) :: rest => strOKB k && wfJ v && wfMems rest
end

/-- Kind tag that get assigns to a serialized value. -/
def jkind : Jv → ValueType
  | .scal bs =>
    if bs == trueLit || bs == falseLit then .Boolean
    else if bs == nullLit then .Null
    else .Number
  | .str _ => .String
  | .arr _ => .Array
  | .obj _ => .Object

/-- Value bytes that get returns for a serialized value: quotes stripped for
strings, empty for null, the full region otherwise. -/
def jvalue (v : Jv) : List Nat :=
  match v with
  | .scal bs => if bs == nullLit then [] else bs
  | .str bs => bs
  | .arr _ => ser v
  | .obj _ => ser v

/-- Decimal digit bytes of a natural number. -/
def decDigits (n : Nat) : List Nat :=
  if h : n < 10 then [48 + n]
  else decDigits (n / 10) ++ [48 + n % 10]
decreasing_by exact Nat.div_lt_self (by omega) (by omega)

/-- Expected callback records of arrayEach over serialized elements whose
first element starts at `base`: the value bytes, the kind, and the offset
argument offset+o-len(v) the loop passes (the element's end minus the length
of the value bytes). -/
def arrCalls : List Jv → Nat → List GetRes
  | [], _ => []
  | v :: rest, base =>
    (⟨jvalue v, jkind v, ((base + (ser v).length - (jvalue v).length : Nat) : Int), none⟩ : GetRes) ::
      arrCalls rest (base + (ser v).length + 1)

/-- Absolute start of the k-th element's region inside a canonically
serialized array. -/
def elemStart (els : List Jv) (k : Nat) : Nat :=
  1 + (((els.take k).map (fun v => (ser v).length + 1)).sum)

/-- Offset that the visitor receives for the k-th element: element end minus
value length. -/
def elemCbOff (els : List Jv) (k : Nat) : Nat :=
  elemStart els k + (ser (els.getD k (.scal nullLit))).length -
    (jvalue (els.getD k (.scal nullLit))).length

/-! ## Canonical-fuel runners

The loop embeddings take a fuel that the wrappers instantiate; for reasoning,
each loop gets a canonical runner whose fuel is computed from the position,
together (later) with lemmas that any sufficient fuel gives the same result. -/

def seRun (data : List Nat) (i : Nat) (esc : Bool) : Option Nat × Bool :=
  stringEndGo data (data.length - i) i esc

def beRun (data : List Nat) (openS closeS : Nat) (i : Nat) (level : Int) : Option Nat :=
  blockEndGo data openS closeS (data.length - i) i level

def skRun (recur : List Nat → List (List Nat) → Option Int)
    (data : List Nat) (keys : List (List Nat)) (i : Nat) (K L : Int) : Option Int :=
  searchKeysGo recur data keys (data.length - i) i K L

def aeRun (data : List Nat) (offset : Int) (acc : List GetRes) :
    Option (List GetRes × Int × Option Err) :=
  arrayEachLoop data (data.length + 1 - offset.toNat) offset acc

/-! ## Basic lemmas about the lexical primitives -/

theorem get?_eq_getElem? (l : List Nat) (n : Nat) : l.get? n = l[n]? :=
  List.get?_eq_getElem? l n

theorem getD_of_getElem? {l : List Nat} {n : Nat} {c : Nat} (h : l[n]? = some c) :
    l.getD n 0 = c := by
  simp [List.getD_eq_getElem?_getD, h]

theorem lt_length_of_getElem? {l : List Nat} {n : Nat} {c : Nat} (h : l[n]? = some c) :
    n < l.length :=
  (List.getElem?_eq_some.mp h).1

theorem nextToken_some {l : List Nat} {n : Nat} (h : nextToken l = some n) :
    ∃ c, l[n]? = some c ∧ isSpaceB c = false := by
  induction l generalizing n with
  | nil => simp [nextToken] at h
  | cons c rest ih =>
    rw [nextToken] at h
    by_cases hc : isSpaceB c
    · rw [if_pos hc] at h
      cases hn : nextToken rest with
      | none => rw [hn] at h; simp at h
      | some m =>
        rw [hn] at h
        simp only [Option.map_some', Option.some.injEq] at h
        obtain ⟨d, hd, hds⟩ := ih hn
        subst h
        exact ⟨d, by simpa using hd, hds⟩
    · rw [if_neg hc] at h
      simp only [Option.some.injEq] at h
      subst h
      exact ⟨c, by simp, by simpa using hc⟩

theorem tokenEnd_le (l : List Nat) : tokenEnd l ≤ l.length := by
  induction l with
  | nil => simp [tokenEnd]
  | cons c rest ih =>
    rw [tokenEnd]
    by_cases hc : isTermB c
    · simp [hc]
    · rw [if_neg hc]
      simp only [List.length_cons]
      omega

theorem stringEndGo_closing {data : List Nat} :
    ∀ {fuel i : Nat} {esc : Bool} {j : Nat},
      (stringEndGo data fuel i esc).1 = some j → data[j - 1]? = some 34 ∧ i < j := by
  intro fuel
  induction fuel with
  | zero => intro i esc j h; simp [stringEndGo] at h
  | succ fuel ih =>
    intro i esc j h
    rw [stringEndGo] at h
    split at h
    · simp at h
    · rename_i c hg
      rw [get?_eq_getElem?] at hg
      split at h
      · rename_i h34
        split at h
        · simp only [Prod.fst, Option.some.injEq] at h
          subst h
          have hc : c = 34 := by simpa using h34
          subst hc
          exact ⟨by simpa using hg, by omega⟩
        · split at h
          · simp only [Prod.fst, Option.some.injEq] at h
            subst h
            have hc : c = 34 := by simpa using h34
            subst hc
            exact ⟨by simpa using hg, by omega⟩
          · obtain ⟨hj, hij⟩ := ih h
            exact ⟨hj, by omega⟩
      · split at h
        · obtain ⟨hj, hij⟩ := ih h
          exact ⟨hj, by omega⟩
        · obtain ⟨hj, hij⟩ := ih h
          exact ⟨hj, by omega⟩

theorem stringEnd_closing {data : List Nat} {j : Nat} (h : (stringEnd data).1 = some j) :
    data[j - 1]? = some 34 ∧ 1 ≤ j ∧ j ≤ data.length := by
  obtain ⟨hq, hj⟩ := stringEndGo_closing h
  have hlt : j - 1 < data.length := lt_length_of_getElem? hq
  exact ⟨hq, by omega, by omega⟩

theorem blockEndGo_close {data : List Nat} {openS closeS : Nat} :
    ∀ {fuel i : Nat} {level : Int} {j : Nat},
      blockEndGo data openS closeS fuel i level = some j →
      data[j - 1]? = some closeS ∧ i < j := by
  intro fuel
  induction fuel with
  | zero => intro i level j h; simp [blockEndGo] at h
  | succ fuel ih =>
    intro i level j h
    rw [blockEndGo] at h
    split at h
    · simp at h
    · rename_i c hg
      rw [get?_eq_getElem?] at hg
      split at h
      · split at h
        · simp at h
        · obtain ⟨hj, hij⟩ := ih h
          exact ⟨hj, by omega⟩
      · split at h
        · obtain ⟨hj, hij⟩ := ih h
          exact ⟨hj, by omega⟩
        · split at h
          · rename_i hcl
            split at h
            · simp only [Option.some.injEq] at h
              subst h
              have hc : c = closeS := by simpa using hcl
              subst hc
              exact ⟨by simpa using hg, by omega⟩
            · obtain ⟨hj, hij⟩ := ih h
              exact ⟨hj, by omega⟩
          · obtain ⟨hj, hij⟩ := ih h
            exact ⟨hj, by omega⟩

theorem blockEnd_close {data : List Nat} {openS closeS : Nat} {j : Nat}
    (h : blockEnd data openS closeS = some j) :
    data[j - 1]? = some closeS ∧ 1 ≤ j ∧ j ≤ data.length := by
  obtain ⟨hq, hj⟩ := blockEndGo_close h
  have hlt : j - 1 < data.length := lt_length_of_getElem? hq
  exact ⟨hq, by omega, by omega⟩

/-! ## C10: ArrayEach on an empty buffer -/

/-- C10: for every visitor and every path argument, ArrayEach applied to an
empty input buffer returns MalformedObjectError (the object-shaped error, not
MalformedArrayError) and never invokes the callback: the recorded call list is
empty and the error is exactly MalformedObject. -/
theorem arrayEach_empty_input (keys : List (List Nat)) :
    arrayEach [] keys = some ([], -1, some .MalformedObject) := rfl

/-! ## C9: totality fails — searchKeys panics on an empty path segment -/

/-- C9: the claim asserts Get, searchKeys, ArrayEach and EachKey never panic,
for every buffer and path including empty-string segments.  The code violates
this: on buffer "[1]" with the single path segment "", searchKeys evaluates
keys[level][0] on the empty segment (src/unnamed/part_003 line 180, and the
same expression at src/parser.go line 174), an index out of range, modelled
here as `none`; Get and ArrayEach on the same input propagate the panic. -/
theorem searchKeys_empty_segment_panics :
    searchKeys [91, 49, 93] [[]] = none ∧
    get [91, 49, 93] [[]] = none ∧
    arrayEach [91, 49, 93] [[]] = none := by decide

/-! ## C8: EachKey at the claimed 63-path limit panics -/

set_option maxRecDepth 8000 in
/-- C8: the claim asserts EachKey is equivalent to independent Get calls for
up to 63 paths.  With exactly 63 paths (here the single-segment paths made of
the two bytes [107, j] for j < 63, against the buffer whose only key is
"k0" = [107, 48]), the flag lookup bitwiseFlags[pi+1] at path index pi = 62
(src/unnamed/part_003 line 300) reads past the 63-entry flag table and
panics, modelled as `none`, while each of the 63 independent Get calls
completes normally. -/
theorem eachKey_63_paths_panics :
    eachKey [123, 34, 107, 48, 34, 58, 49, 125]
      ((List.range 63).map (fun j => [[107, j]])) = none ∧
    ((List.range 63).all
      (fun j => (get [123, 34, 107, 48, 34, 58, 49, 125] [[107, j]]).isSome)) = true := by
  constructor
  · rfl
  · rfl

/-! ## C4: Get success versus searchKeys, corrected -/

/-- C4 counterexample: the claim's equivalence fails right-to-left.  On the
truncated buffer `{"a":` with path ["a"], searchKeys returns the non-negative
offset 5 (the position after the colon), yet Get returns MalformedJsonError,
not a nil error. -/
theorem get_searchKeys_iff_counterexample :
    searchKeys [123, 34, 97, 34, 58] [[97]] = some 5 ∧
    get [123, 34, 97, 34, 58] [[97]] =
      some ⟨[], .NotExist, -1, some .MalformedJson⟩ := by decide

/-- C4 amended: for a non-empty path, a nil-error Get implies searchKeys
returned a non-negative offset, and a searchKeys result of -1 implies Get
returns KeyPathNotFoundError; the right-to-left direction of the original
equivalence does not hold (see the counterexample). -/
theorem get_success_implies_searchKeys (data : List Nat) (keys : List (List Nat))
    (r : GetRes) (hk : keys ≠ []) (h : get data keys = some r) :
    (r.err = none → ∃ off : Int, searchKeys data keys = some off ∧ 0 ≤ off) ∧
    (searchKeys data keys = some (-1) → r.err = some .KeyPathNotFound) := by
  have hk' : keys.length > 0 := List.length_pos.mpr hk
  rw [get, if_pos (by simpa using hk')] at h
  split at h
  · simp at h
  · rename_i off hsk
    rw [hsk]
    split at h
    · rename_i hoff
      have hr : r = ⟨[], .NotExist, -1, some .KeyPathNotFound⟩ := by
        simpa using h.symm
      subst hr
      constructor
      · intro he; simp at he
      · intro _; rfl
    · rename_i hoff
      split at h
      · simp at h
      · rename_i hguard
        have hoff' : ¬ off = -1 := by simpa using hoff
        have hg2 : ¬(off < 0 ∨ (data.length : Int) < off) := by simpa using hguard
        push_neg at hg2
        constructor
        · intro _; exact ⟨off, rfl, hg2.1⟩
        · intro hsk'
          exact absurd (by simpa using hsk' : off = -1) hoff'

/-- C4 witness: the amended theorem applied to the buffer {"a":"b"} and path
["a"], where Get succeeds. -/
theorem get_success_implies_searchKeys_witness :
    ∃ off : Int, searchKeys [123, 34, 97, 34, 58, 34, 98, 34, 125] [[97]] = some off ∧ 0 ≤ off :=
  (get_success_implies_searchKeys [123, 34, 97, 34, 58, 34, 98, 34, 125] [[97]]
    ⟨[98], .String, 8, none⟩ (by decide) (by decide)).1 rfl

/-! ## C1: shape of a successful Get result -/

/-- Shape of a nil-error result of the post-search body of get: there are
absolute positions s (value start) and e (end offset) with the kind-determined
region shape and e within the buffer. -/
theorem getFrom_shape (data : List Nat) (off : Nat) (r : GetRes)
    (hr : getFrom data off = r) (he : r.err = none) :
    ∃ s e : Nat, r.offset = (e : Int) ∧ e ≤ data.length ∧
      ((r.dataType = .String ∧ data[s]? = some 34 ∧ data[e - 1]? = some 34 ∧
          s + 2 ≤ e ∧ r.value = extract data (s + 1) (e - 1)) ∨
       (r.dataType = .Null ∧ r.value = [] ∧ s ≤ e) ∨
       (r.dataType = .Object ∧ data[s]? = some 123 ∧ data[e - 1]? = some 125 ∧
          s < e ∧ r.value = extract data s e) ∨
       (r.dataType = .Array ∧ data[s]? = some 91 ∧ data[e - 1]? = some 93 ∧
          s < e ∧ r.value = extract data s e) ∨
       ((r.dataType = .Number ∨ r.dataType = .Boolean) ∧ s ≤ e ∧
          e = s + tokenEnd (data.drop s) ∧ r.value = extract data s e)) := by
  rw [getFrom] at hr
  split at hr
  · subst hr; simp at he
  · rename_i nO hnt
    obtain ⟨c, hc, _⟩ := nextToken_some hnt
    rw [List.getElem?_drop] at hc
    have hlt : off + nO < data.length := lt_length_of_getElem? hc
    have hgd : data.getD (off + nO) 0 = c := getD_of_getElem? hc
    simp only [hgd] at hr
    split at hr
    · rename_i h34
      have hc34 : c = 34 := by simpa using h34
      subst hc34
      split at hr
      · rename_i idx hidx
        obtain ⟨hq, hidx1, hidxle⟩ := stringEnd_closing hidx
        rw [List.getElem?_drop] at hq
        have hdl : (data.drop (off + nO + 1)).length = data.length - (off + nO + 1) :=
          List.length_drop _ _
        rw [hdl] at hidxle
        refine ⟨off + nO, off + nO + idx + 1, by rw [← hr], by omega,
          Or.inl ⟨by rw [← hr], hc, ?_, by omega,
            by have he2 : off + nO + idx + 1 - 1 = off + nO + idx := by omega
               rw [he2, ← hr]⟩⟩
        have he1 : off + nO + idx + 1 - 1 = off + nO + 1 + (idx - 1) := by omega
        rw [he1]
        exact hq
      · subst hr; simp at he
    · rename_i h34
      split at hr
      · rename_i h91
        have hc91 : c = 91 := by simpa using h91
        subst hc91
        split at hr
        · rename_i be hbe
          obtain ⟨hq, hbe1, hbele⟩ := blockEnd_close hbe
          rw [List.getElem?_drop] at hq
          have hdl : (data.drop (off + nO)).length = data.length - (off + nO) :=
            List.length_drop _ _
          rw [hdl] at hbele
          refine ⟨off + nO, off + nO + be, by rw [← hr], by omega,
            Or.inr (Or.inr (Or.inr (Or.inl ⟨by rw [← hr], hc, ?_, by omega, by rw [← hr]⟩)))⟩
          have he1 : off + nO + be - 1 = off + nO + (be - 1) := by omega
          rw [he1]
          exact hq
        · subst hr; simp at he
      · rename_i h91
        split at hr
        · rename_i h123
          have hc123 : c = 123 := by simpa using h123
          subst hc123
          split at hr
          · rename_i be hbe
            obtain ⟨hq, hbe1, hbele⟩ := blockEnd_close hbe
            rw [List.getElem?_drop] at hq
            have hdl : (data.drop (off + nO)).length = data.length - (off + nO) :=
              List.length_drop _ _
            rw [hdl] at hbele
            refine ⟨off + nO, off + nO + be, by rw [← hr], by omega,
              Or.inr (Or.inr (Or.inl ⟨by rw [← hr], hc, ?_, by omega, by rw [← hr]⟩))⟩
            have he1 : off + nO + be - 1 = off + nO + (be - 1) := by omega
            rw [he1]
            exact hq
          · subst hr; simp at he
        · rename_i h123
          have hte := tokenEnd_le (data.drop (off + nO))
          rw [List.length_drop] at hte
          split at hr
          · split at hr
            · refine ⟨off + nO, off + nO + tokenEnd (data.drop (off + nO)), by rw [← hr], by omega,
                Or.inr (Or.inr (Or.inr (Or.inr ⟨Or.inr (by rw [← hr]), by omega, rfl, by rw [← hr]⟩)))⟩
            · subst hr; simp at he
          · split at hr
            · split at hr
              · refine ⟨off + nO, off + nO + tokenEnd (data.drop (off + nO)), by rw [← hr], by omega,
                  Or.inr (Or.inl ⟨by rw [← hr], by rw [← hr], by omega⟩)⟩
              · subst hr; simp at he
            · split at hr
              · refine ⟨off + nO, off + nO + tokenEnd (data.drop (off + nO)), by rw [← hr], by omega,
                  Or.inr (Or.inr (Or.inr (Or.inr ⟨Or.inl (by rw [← hr]), by omega, rfl, by rw [← hr]⟩)))⟩
              · subst hr; simp at he

/-- C1: whenever Get returns a nil error, the returned region has the
kind-determined shape — for String the region excludes the surrounding quote
bytes at positions s and e-1; for Null the region is empty; for Object and
Array the region includes the outer braces/brackets; for Number and Boolean
the region is the literal run up to the token terminator — and the returned
end-offset e points at the byte immediately after the value, lying between
the region end and the buffer length. -/
theorem get_success_shape (data : List Nat) (keys : List (List Nat)) (r : GetRes)
    (h : get data keys = some r) (he : r.err = none) :
    ∃ s e : Nat, r.offset = (e : Int) ∧ e ≤ data.length ∧
      ((r.dataType = .String ∧ data[s]? = some 34 ∧ data[e - 1]? = some 34 ∧
          s + 2 ≤ e ∧ r.value = extract data (s + 1) (e - 1)) ∨
       (r.dataType = .Null ∧ r.value = [] ∧ s ≤ e) ∨
       (r.dataType = .Object ∧ data[s]? = some 123 ∧ data[e - 1]? = some 125 ∧
          s < e ∧ r.value = extract data s e) ∨
       (r.dataType = .Array ∧ data[s]? = some 91 ∧ data[e - 1]? = some 93 ∧
          s < e ∧ r.value = extract data s e) ∨
       ((r.dataType = .Number ∨ r.dataType = .Boolean) ∧ s ≤ e ∧
          e = s + tokenEnd (data.drop s) ∧ r.value = extract data s e)) := by
  rw [get] at h
  split at h
  · split at h
    · simp at h
    · rename_i off hsk
      split at h
      · rename_i hoff
        have hr : r = ⟨[], .NotExist, -1, some .KeyPathNotFound⟩ := by simpa using h.symm
        subst hr; simp at he
      · split at h
        · simp at h
        · exact getFrom_shape data off.toNat r (by simpa using h) he
  · exact getFrom_shape data 0 r (by simpa using h) he

/-- C1 witness: the shape theorem applied to Get on the two-byte buffer 42
with the empty path. -/
theorem get_success_shape_witness :
    ∃ s e : Nat, (GetRes.mk [52, 50] .Number 2 none).offset = (e : Int) ∧
      e ≤ ([52, 50] : List Nat).length ∧
      (((GetRes.mk [52, 50] .Number 2 none).dataType = .String ∧
          ([52, 50] : List Nat)[s]? = some 34 ∧ ([52, 50] : List Nat)[e - 1]? = some 34 ∧
          s + 2 ≤ e ∧ (GetRes.mk [52, 50] .Number 2 none).value = extract [52, 50] (s + 1) (e - 1)) ∨
       ((GetRes.mk [52, 50] .Number 2 none).dataType = .Null ∧
          (GetRes.mk [52, 50] .Number 2 none).value = [] ∧ s ≤ e) ∨
       ((GetRes.mk [52, 50] .Number 2 none).dataType = .Object ∧
          ([52, 50] : List Nat)[s]? = some 123 ∧ ([52, 50] : List Nat)[e - 1]? = some 125 ∧
          s < e ∧ (GetRes.mk [52, 50] .Number 2 none).value = extract [52, 50] s e) ∨
       ((GetRes.mk [52, 50] .Number 2 none).dataType = .Array ∧
          ([52, 50] : List Nat)[s]? = some 91 ∧ ([52, 50] : List Nat)[e - 1]? = some 93 ∧
          s < e ∧ (GetRes.mk [52, 50] .Number 2 none).value = extract [52, 50] s e) ∨
       (((GetRes.mk [52, 50] .Number 2 none).dataType = .Number ∨
           (GetRes.mk [52, 50] .Number 2 none).dataType = .Boolean) ∧ s ≤ e ∧
          e = s + tokenEnd (([52, 50] : List Nat).drop s) ∧
          (GetRes.mk [52, 50] .Number 2 none).value = extract [52, 50] s e)) :=
  get_success_shape [52, 50] [] ⟨[52, 50], .Number, 2, none⟩ (by decide) rfl

/-! ## C2: stringEnd finds the first even-parity quote -/

theorem bsRun_zero {s : List Nat} {i : Nat}
    (h : ∀ j, j < i → ¬ s[j]? = some 92) : bsRun s i = 0 := by
  cases i with
  | zero => rfl
  | succ i =>
    rw [bsRun]
    have : ¬ s.getD i 0 == 92 := by
      intro hc
      have hv : s.getD i 0 = 92 := by simpa using hc
      by_cases hi : i < s.length
      · obtain ⟨d, hd⟩ : ∃ d, s[i]? = some d := ⟨s[i], List.getElem?_eq_getElem hi⟩
        have := getD_of_getElem? hd
        exact h i (by omega) (by rw [hd, ← this, hv])
      · rw [List.getD_eq_getElem?_getD, List.getElem?_eq_none (by omega)] at hv
        simp at hv
    rw [if_neg this]

theorem stringEndGo_spec {s : List Nat} :
    ∀ (fuel i : Nat) (esc : Bool),
      s.length ≤ i + fuel →
      (esc = true ↔ ∃ j, j < i ∧ s[j]? = some 92) →
      (∀ j, j < i → ¬ IsClosing s j) →
      ((∀ m, ¬ IsClosing s m) → (stringEndGo s fuel i esc).1 = none) ∧
      (∀ m, IsClosing s m → (∀ j, j < m → ¬ IsClosing s j) →
        stringEndGo s fuel i esc =
          (some (m + 1), decide (∃ j, j < m ∧ s[j]? = some 92))) := by
  intro fuel
  induction fuel with
  | zero =>
    intro i esc hfuel hesc hnc
    constructor
    · intro _; simp [stringEndGo]
    · intro m hm _
      have hms : m < s.length := lt_length_of_getElem? hm.1
      exact absurd hm (hnc m (by omega))
  | succ fuel ih =>
    intro i esc hfuel hesc hnc
    by_cases hi : i < s.length
    · obtain ⟨c, hc⟩ : ∃ c, s[i]? = some c := ⟨s[i], List.getElem?_eq_getElem hi⟩
      have hcg : s.get? i = some c := by rw [get?_eq_getElem?]; exact hc
      by_cases h34 : c = 34
      · subst h34
        by_cases hesc' : esc = true
        · subst hesc'
          by_cases hrun : bsRun s i % 2 = 0
          · have heval : stringEndGo s (fuel + 1) i true = (some (i + 1), true) := by
              rw [stringEndGo, hcg]; simp [hrun]
            have hcl : IsClosing s i := ⟨hc, hrun⟩
            constructor
            · intro hno; exact absurd hcl (hno i)
            · intro m hm hmin
              have him : m = i := by
                by_contra hne
                rcases Nat.lt_or_ge m i with hlt | hge
                · exact hnc m hlt hm
                · exact hmin i (by omega) hcl
              subst him
              rw [heval]
              have hd : decide (∃ j, j < m ∧ s[j]? = some 92) = true := by
                simp only [decide_eq_true_eq]
                exact hesc.mp rfl
              rw [hd]
          · have hrb : (bsRun s i % 2 == 0) = false := by simpa using hrun
            have heval : stringEndGo s (fuel + 1) i true = stringEndGo s fuel (i + 1) true := by
              rw [stringEndGo, hcg]; simp [hrb]
            have hncl : ¬ IsClosing s i := fun hcl => hrun hcl.2
            have hih := ih (i + 1) true (by omega)
              (by
                constructor
                · intro _
                  obtain ⟨j, hj, hjb⟩ := hesc.mp rfl
                  exact ⟨j, by omega, hjb⟩
                · intro _; rfl)
              (by
                intro j hj
                rcases Nat.lt_or_ge j i with hlt | hge
                · exact hnc j hlt
                · have : j = i := by omega
                  subst this; exact hncl)
            rw [heval]
            exact hih
        · have hesc'' : esc = false := by simpa using hesc'
          subst hesc''
          have heval : stringEndGo s (fuel + 1) i false = (some (i + 1), false) := by
            rw [stringEndGo, hcg]; simp
          have hnb : ∀ j, j < i → ¬ s[j]? = some 92 := by
            intro j hj hb
            exact absurd (hesc.mpr ⟨j, hj, hb⟩) (by simp)
          have hcl : IsClosing s i := ⟨hc, by rw [bsRun_zero hnb]⟩
          constructor
          · intro hno; exact absurd hcl (hno i)
          · intro m hm hmin
            have him : m = i := by
              by_contra hne
              rcases Nat.lt_or_ge m i with hlt | hge
              · exact hnc m hlt hm
              · exact hmin i (by omega) hcl
            subst him
            rw [heval]
            have hd : decide (∃ j, j < m ∧ s[j]? = some 92) = false := by
              simp only [decide_eq_false_iff_not]
              intro ⟨j, hj, hjb⟩
              exact hnb j hj hjb
            rw [hd]
      · have h34b : (c == 34) = false := by simpa using h34
        have hncl : ¬ IsClosing s i := by
          intro hcl
          have h1 := hcl.1
          rw [hc] at h1
          exact h34 (by simpa using h1)
        have hnc' : ∀ j, j < i + 1 → ¬ IsClosing s j := by
          intro j hj
          rcases Nat.lt_or_ge j i with hlt | hge
          · exact hnc j hlt
          · have : j = i := by omega
            subst this; exact hncl
        by_cases h92 : c = 92
        · subst h92
          have heval : stringEndGo s (fuel + 1) i esc = stringEndGo s fuel (i + 1) true := by
            rw [stringEndGo, hcg]; simp
          rw [heval]
          exact ih (i + 1) true (by omega) ⟨fun _ => ⟨i, by omega, hc⟩, fun _ => rfl⟩ hnc'
        · have h92b : (c == 92) = false := by simpa using h92
          have heval : stringEndGo s (fuel + 1) i esc = stringEndGo s fuel (i + 1) esc := by
            rw [stringEndGo, hcg]; simp [h34b, h92b]
          rw [heval]
          refine ih (i + 1) esc (by omega) ?_ hnc'
          constructor
          · intro he; obtain ⟨j, hj, hjb⟩ := hesc.mp he; exact ⟨j, by omega, hjb⟩
          · intro ⟨j, hj, hjb⟩
            apply hesc.mpr
            refine ⟨j, ?_, hjb⟩
            rcases Nat.lt_or_ge j i with hlt | hge
            · exact hlt
            · have : j = i := by omega
              subst this
              rw [hc] at hjb
              exact absurd (by simpa using hjb : c = 92) h92
    · have hg : s.get? i = none := by
        rw [get?_eq_getElem?]
        exact List.getElem?_eq_none (by omega)
      have heval : (stringEndGo s (fuel + 1) i esc).1 = none := by
        rw [stringEndGo, hg]
      constructor
      · intro _; exact heval
      · intro m hm _
        have hms : m < s.length := lt_length_of_getElem? hm.1
        exact absurd hm (hnc m (by omega))

/-- C2: for a byte slice s whose first byte is the one after an opening
quote, stringEnd returns one past the first quote of s preceded by an even
number of consecutive backslashes (the first closing quote), with a flag that
is true iff some backslash occurs before that quote; when no closing quote
exists the index result is none (Go's -1). -/
theorem stringEnd_spec (s : List Nat) :
    (∀ m, IsClosing s m → (∀ j, j < m → ¬ IsClosing s j) →
      (stringEnd s).1 = some (m + 1) ∧
      ((stringEnd s).2 = true ↔ ∃ j, j < m ∧ s[j]? = some 92)) ∧
    ((∀ m, ¬ IsClosing s m) → (stringEnd s).1 = none) := by
  have h := stringEndGo_spec (s := s) s.length 0 false (by omega) (by simp) (by omega)
  constructor
  · intro m hm hmin
    have := h.2 m hm hmin
    rw [stringEnd, this]
    exact ⟨rfl, by simp⟩
  · intro hno
    rw [stringEnd]
    exact h.1 hno

/-- C2 witness: the buffer a\\"b — the quote at index 3 is preceded by two
backslashes (even), so it closes the string at index 4 with the escape flag
set. -/
theorem stringEnd_spec_witness :
    (stringEnd [97, 92, 92, 34, 98]).1 = some 4 ∧
    ((stringEnd [97, 92, 92, 34, 98]).2 = true ↔
      ∃ j, j < 3 ∧ ([97, 92, 92, 34, 98] : List Nat)[j]? = some 92) :=
  (stringEnd_spec [97, 92, 92, 34, 98]).1 3 (by decide)
    (by decide)

/-! ## C6: bare value tokens terminated by end of input -/

theorem nextToken_ws_append {ws : List Nat} {d : Nat} {rest : List Nat}
    (hws : ∀ c ∈ ws, isSpaceB c = true) (hd : isSpaceB d = false) :
    nextToken (ws ++ d :: rest) = some ws.length := by
  induction ws with
  | nil => simp [nextToken, hd]
  | cons w ws ih =>
    have hw : isSpaceB w = true := hws w (by simp)
    rw [List.cons_append, nextToken, if_pos hw,
      ih (fun c hc => hws c (by simp [hc]))]
    rfl

theorem tokenEnd_all_nonterm {l : List Nat} (h : ∀ c ∈ l, isTermB c = false) :
    tokenEnd l = l.length := by
  induction l with
  | nil => rfl
  | cons c rest ih =>
    rw [tokenEnd, if_neg (by simp [h c (by simp)]),
      ih (fun d hd => h d (by simp [hd]))]
    rfl

theorem extract_append_left (ws tok : List Nat) (e : Nat) :
    extract (ws ++ tok) ws.length (ws.length + e) = tok.take e := by
  rw [extract, List.drop_left, Nat.add_sub_cancel_left]

/-- C6: a buffer holding one bare value token (a Number run, a Boolean
literal, or the Null literal), optionally preceded by whitespace and with no
byte after the token, is accepted by Get with the empty path: end of input
terminates the token, the kind and region are as the token dictates, and the
end offset is the buffer length — rather than MalformedValueError.  (The
older revision src/parser.go, whose tokenEnd returns -1 at end of input,
rejects such buffers; the current tokenEnd of src/unnamed/part_003 line 35
returns the buffer length, which is what the repository's own trivial Get
fixtures in parser_test.go expect.) -/
theorem get_bare_token_eof (ws tok : List Nat) (k : ValueType) (v : List Nat)
    (hws : ∀ c ∈ ws, isSpaceB c = true)
    (htok : (tok = trueLit ∧ k = .Boolean ∧ v = tok) ∨
            (tok = falseLit ∧ k = .Boolean ∧ v = tok) ∨
            (tok = nullLit ∧ k = .Null ∧ v = []) ∨
            ((∃ d rest, tok = d :: rest ∧ (isDigitB d = true ∨ d = 45)) ∧
             (∀ c ∈ tok, isTermB c = false) ∧ k = .Number ∧ v = tok)) :
    get (ws ++ tok) [] = some ⟨v, k, ((ws.length + tok.length : Nat) : Int), none⟩ := by
  rw [get, if_neg (by simp)]
  have hlen : (ws ++ tok).length = ws.length + tok.length := List.length_append ws tok
  rcases htok with ⟨htok, hk, hv⟩ | ⟨htok, hk, hv⟩ | ⟨htok, hk, hv⟩ |
    ⟨⟨d, rest, htok, hdig⟩, hterm, hk, hv⟩
  · subst htok hk hv
    have hnt : nextToken (ws ++ trueLit) = some ws.length :=
      nextToken_ws_append hws (by decide)
    rw [getFrom, List.drop_zero, hnt]
    have hgd : (ws ++ trueLit).getD (0 + ws.length) 0 = 116 := by
      apply getD_of_getElem?
      rw [Nat.zero_add, show ws.length = ws.length + 0 from rfl,
        List.getElem?_append_right (by omega)]
      simp [trueLit]
    have hdrop : (ws ++ trueLit).drop (0 + ws.length) = trueLit := by
      rw [Nat.zero_add, List.drop_left]
    simp only [hgd, hdrop]
    have hext : extract (ws ++ trueLit) (0 + ws.length) (0 + ws.length + tokenEnd trueLit) =
        trueLit := by
      rw [Nat.zero_add, show tokenEnd trueLit = 4 from rfl,
        extract_append_left ws trueLit 4]
      rfl
    rw [hext]
    simp [trueLit]
    rfl
  · subst htok hk hv
    have hnt : nextToken (ws ++ falseLit) = some ws.length :=
      nextToken_ws_append hws (by decide)
    rw [getFrom, List.drop_zero, hnt]
    have hgd : (ws ++ falseLit).getD (0 + ws.length) 0 = 102 := by
      apply getD_of_getElem?
      rw [Nat.zero_add, show ws.length = ws.length + 0 from rfl,
        List.getElem?_append_right (by omega)]
      simp [falseLit]
    have hdrop : (ws ++ falseLit).drop (0 + ws.length) = falseLit := by
      rw [Nat.zero_add, List.drop_left]
    simp only [hgd, hdrop]
    have hext : extract (ws ++ falseLit) (0 + ws.length) (0 + ws.length + tokenEnd falseLit) =
        falseLit := by
      rw [Nat.zero_add, show tokenEnd falseLit = 5 from rfl,
        extract_append_left ws falseLit 5]
      rfl
    rw [hext]
    simp [falseLit]
    rfl
  · subst htok hk hv
    have hnt : nextToken (ws ++ nullLit) = some ws.length :=
      nextToken_ws_append hws (by decide)
    rw [getFrom, List.drop_zero, hnt]
    have hgd : (ws ++ nullLit).getD (0 + ws.length) 0 = 110 := by
      apply getD_of_getElem?
      rw [Nat.zero_add, show ws.length = ws.length + 0 from rfl,
        List.getElem?_append_right (by omega)]
      simp [nullLit]
    have hdrop : (ws ++ nullLit).drop (0 + ws.length) = nullLit := by
      rw [Nat.zero_add, List.drop_left]
    simp only [hgd, hdrop]
    have hext : extract (ws ++ nullLit) (0 + ws.length) (0 + ws.length + tokenEnd nullLit) =
        nullLit := by
      rw [Nat.zero_add, show tokenEnd nullLit = 4 from rfl,
        extract_append_left ws nullLit 4]
      rfl
    rw [hext]
    simp [nullLit]
    rfl
  · subst htok hk hv
    have hdrange : (48 ≤ d ∧ d ≤ 57) ∨ d = 45 := by
      rcases hdig with h | h
      · left; simpa [isDigitB] using h
      · right; exact h
    have hdr : 45 ≤ d ∧ d ≤ 57 := by
      rcases hdrange with ⟨h1, h2⟩ | h1
      · exact ⟨by omega, h2⟩
      · subst h1; exact ⟨by omega, by omega⟩
    have hdspace : isSpaceB d = false := by
      simp only [isSpaceB, Bool.or_eq_false_iff, beq_eq_false_iff_ne, ne_eq]
      omega
    have hnt : nextToken (ws ++ d :: rest) = some ws.length :=
      nextToken_ws_append hws hdspace
    rw [getFrom, List.drop_zero, hnt]
    have hgd : (ws ++ d :: rest).getD (0 + ws.length) 0 = d := by
      apply getD_of_getElem?
      rw [Nat.zero_add, show ws.length = ws.length + 0 from rfl,
        List.getElem?_append_right (by omega)]
      simp
    have hdrop : (ws ++ d :: rest).drop (0 + ws.length) = d :: rest := by
      rw [Nat.zero_add, List.drop_left]
    simp only [hgd, hdrop]
    have hb34 : (d == 34) = false := by
      simp only [beq_eq_false_iff_ne, ne_eq]; omega
    have hb91 : (d == 91) = false := by
      simp only [beq_eq_false_iff_ne, ne_eq]; omega
    have hb123 : (d == 123) = false := by
      simp only [beq_eq_false_iff_ne, ne_eq]; omega
    have hb116 : (d == 116 || d == 102) = false := by
      simp only [Bool.or_eq_false_iff, beq_eq_false_iff_ne, ne_eq]
      omega
    have hb117 : (d == 117 || d == 110) = false := by
      simp only [Bool.or_eq_false_iff, beq_eq_false_iff_ne, ne_eq]
      omega
    have hbd : ((48 ≤ d && d ≤ 57) || d == 45) = true := by
      simp only [Bool.or_eq_true, Bool.and_eq_true, decide_eq_true_eq, beq_iff_eq]
      omega
    have hte : tokenEnd (d :: rest) = (d :: rest).length := tokenEnd_all_nonterm hterm
    have hext : extract (ws ++ d :: rest) (0 + ws.length)
        (0 + ws.length + tokenEnd (d :: rest)) = d :: rest := by
      rw [Nat.zero_add, hte, extract_append_left ws (d :: rest) (d :: rest).length,
        List.take_length]
    rw [hb34, hb91, hb123, hb116, hb117, hbd, hext, hte]
    simp only [if_false, if_true, Bool.false_eq_true]
    norm_num

/-- C6 witness: Get on the two-byte buffer 42 with no trailing whitespace
succeeds with kind Number and region 42. -/
theorem get_bare_token_eof_witness :
    get [52, 50] [] = some ⟨[52, 50], .Number, (2 : Int), none⟩ := by
  have h := get_bare_token_eof [] [52, 50] .Number [52, 50] (by simp)
    (Or.inr (Or.inr (Or.inr ⟨⟨52, [50], rfl, Or.inl (by decide)⟩, by decide, rfl, rfl⟩)))
  simpa using h

/-! ## Scanning canonically serialized values: list helpers -/

theorem getElem?_of_drop {data : List Nat} {i : Nat} {c : Nat} {t : List Nat}
    (h : data.drop i = c :: t) : data[i]? = some c := by
  have h0 : (data.drop i)[0]? = some c := by rw [h]; simp
  rw [List.getElem?_drop] at h0
  simpa using h0

theorem get?_of_drop {data : List Nat} {i : Nat} {c : Nat} {t : List Nat}
    (h : data.drop i = c :: t) : data.get? i = some c := by
  rw [get?_eq_getElem?]; exact getElem?_of_drop h

theorem drop_succ_of_drop {data : List Nat} {i : Nat} {c : Nat} {t : List Nat}
    (h : data.drop i = c :: t) : data.drop (i + 1) = t := by
  have := congrArg (List.drop 1) h
  rw [List.drop_drop] at this
  simpa using this

theorem drop_append_of_drop {data : List Nat} {i : Nat} {pre t : List Nat}
    (h : data.drop i = pre ++ t) : data.drop (i + pre.length) = t := by
  have := congrArg (List.drop pre.length) h
  rw [List.drop_drop, List.drop_left] at this
  exact this

theorem length_ge_of_drop {data : List Nat} {i : Nat} {c : Nat} {t : List Nat}
    (h : data.drop i = c :: t) : i < data.length :=
  lt_length_of_getElem? (getElem?_of_drop h)

theorem strOKB_head {b : Nat} {bs : List Nat} (h : strOKB (b :: bs) = true) :
    (b ≠ 34 ∧ b ≠ 92) ∧ strOKB bs = true := by
  rw [strOKB] at h
  simp only [List.all_cons, Bool.and_eq_true, bne_iff_ne, ne_eq] at h
  exact ⟨h.1, h.2⟩

/-- Scanning a string content with no quotes or backslashes, followed by a
closing quote: stringEnd finds the close, with the escape flag clear. -/
theorem stringEndGo_plain (data : List Nat) :
    ∀ (bs rest : List Nat) (i fuel : Nat),
      data.drop i = bs ++ 34 :: rest → strOKB bs = true → bs.length + 1 ≤ fuel →
      stringEndGo data fuel i false = (some (i + (bs.length + 1)), false) := by
  intro bs
  induction bs with
  | nil =>
    intro rest i fuel hd _ hf
    obtain ⟨fuel', rfl⟩ : ∃ f, fuel = f + 1 := ⟨fuel - 1, by omega⟩
    rw [stringEndGo, get?_of_drop (by simpa using hd)]
    rfl
  | cons b bs ih =>
    intro rest i fuel hd hok hf
    obtain ⟨⟨hb34, hb92⟩, hok'⟩ := strOKB_head hok
    obtain ⟨fuel', rfl⟩ : ∃ f, fuel = f + 1 := ⟨fuel - 1, by omega⟩
    have hb34' : (b == 34) = false := by simpa using hb34
    have hb92' : (b == 92) = false := by simpa using hb92
    have heval : stringEndGo data (fuel' + 1) i false = stringEndGo data fuel' (i + 1) false := by
      rw [stringEndGo, get?_of_drop (by simpa using hd)]
      simp [hb34', hb92']
    have hd' : data.drop (i + 1) = bs ++ 34 :: rest := drop_succ_of_drop (by simpa using hd)
    have harith : i + 1 + (bs.length + 1) = i + ((b :: bs).length + 1) := by simp; omega
    rw [heval, ih rest (i + 1) fuel' hd' hok' (by omega), harith]

/-- Specialization to the wrapper. -/
theorem stringEnd_plain {bs rest : List Nat} (hok : strOKB bs = true) :
    stringEnd (bs ++ 34 :: rest) = (some (bs.length + 1), false) := by
  have h := stringEndGo_plain (bs ++ 34 :: rest) bs rest 0 (bs ++ 34 :: rest).length
    (by simp) hok (by simp)
  rw [stringEnd]
  simpa using h

/-- Token scan of a run of non-terminator bytes followed by a terminator. -/
theorem tokenEnd_append_term {bs : List Nat} {b : Nat} {r : List Nat}
    (hbs : ∀ c ∈ bs, isTermB c = false) (hb : isTermB b = true) :
    tokenEnd (bs ++ b :: r) = bs.length := by
  induction bs with
  | nil => simp [tokenEnd, hb]
  | cons c rest ih =>
    rw [List.cons_append, tokenEnd, if_neg (by simp [hbs c (by simp)]),
      ih (fun d hd => hbs d (by simp [hd]))]
    rfl

theorem plainB_facts {c : Nat} (h : plainB c = true) :
    c ≠ 34 ∧ c ≠ 92 ∧ c ≠ 123 ∧ c ≠ 125 ∧ c ≠ 91 ∧ c ≠ 93 ∧ c ≠ 58 ∧ c ≠ 44 ∧
    isSpaceB c = false := by
  rw [plainB] at h
  simp only [Bool.and_eq_true, Bool.not_eq_true', Bool.or_eq_false_iff,
    beq_eq_false_iff_ne, ne_eq] at h
  obtain ⟨⟨⟨⟨⟨⟨⟨h34, h92⟩, h123⟩, h125⟩, h91⟩, h93⟩, h58⟩, h44⟩ := h.1
  exact ⟨h34, h92, h123, h125, h91, h93, h58, h44, h.2⟩

theorem plainB_not_space {c : Nat} (h : plainB c = true) : isSpaceB c = false :=
  (plainB_facts h).2.2.2.2.2.2.2.2

theorem plainB_not_term {c : Nat} (h : plainB c = true) : isTermB c = false := by
  obtain ⟨_, _, _, h125, _, h93, _, h44, hsp⟩ := plainB_facts h
  rw [isTermB]
  simp [hsp, h44, h125, h93]

theorem ser_ne_nil (v : Jv) (hwf : wfJ v = true) : (ser v).length ≠ 0 := by
  cases v with
  | scal bs =>
    cases bs with
    | nil =>
      rw [wfJ, scalOKB] at hwf
      simp [trueLit, falseLit, nullLit] at hwf
    | cons b bs => simp [ser]
  | str bs => simp [ser]
  | arr els => simp [ser]
  | obj mems => simp [ser]

/-! ## Fuel invariance for blockEnd -/

theorem blockEndGo_stuck (data : List Nat) (o c : Nat) :
    ∀ (fuel : Nat) {i : Nat} {level : Int}, data.length ≤ i →
      blockEndGo data o c fuel i level = none := by
  intro fuel
  cases fuel with
  | zero => intro i level _; rfl
  | succ fuel =>
    intro i level hi
    have hg : data.get? i = none := by
      rw [get?_eq_getElem?]
      exact List.getElem?_eq_none hi
    rw [blockEndGo, hg]

theorem blockEndGo_fuelInv {data : List Nat} {o c : Nat} :
    ∀ {fuel fuel' i : Nat} {level : Int},
      data.length ≤ i + fuel → data.length ≤ i + fuel' →
      blockEndGo data o c fuel i level = blockEndGo data o c fuel' i level := by
  intro fuel
  induction fuel with
  | zero =>
    intro fuel' i level hf hf'
    rw [blockEndGo_stuck data o c 0 (by omega), blockEndGo_stuck data o c fuel' (by omega)]
  | succ fuel ih =>
    intro fuel' i level hf hf'
    by_cases hi : i < data.length
    · obtain ⟨f', rfl⟩ : ∃ f, fuel' = f + 1 := ⟨fuel' - 1, by omega⟩
      obtain ⟨cc, hcc⟩ : ∃ cc, data.get? i = some cc := by
        rw [get?_eq_getElem?]
        exact ⟨data[i], List.getElem?_eq_getElem hi⟩
      simp only [blockEndGo, hcc]
      split
      · split
        · rfl
        · rename_i se hse
          exact @ih f' (i + se + 1) level (by omega) (by omega)
      · split
        · exact @ih f' (i + 1) (level + 1) (by omega) (by omega)
        · split
          · split
            · rfl
            · exact @ih f' (i + 1) (level - 1) (by omega) (by omega)
          · exact @ih f' (i + 1) level (by omega) (by omega)
    · rw [blockEndGo_stuck data o c _ (by omega), blockEndGo_stuck data o c _ (by omega)]

/-- Canonical-fuel form of blockEndGo: any sufficient fuel equals the runner. -/
theorem blockEndGo_eq_beRun {data : List Nat} {o c : Nat} {fuel i : Nat} {level : Int}
    (hf : data.length ≤ i + fuel) :
    blockEndGo data o c fuel i level = beRun data o c i level :=
  blockEndGo_fuelInv hf (by omega)

/-! ## blockEnd runner steps -/

theorem beRun_step_default {data : List Nat} {o c b : Nat} {i : Nat} {level : Int}
    (hb : data.get? i = some b) (h34 : b ≠ 34) (ho : b ≠ o) (hc : b ≠ c) :
    beRun data o c i level = beRun data o c (i + 1) level := by
  have hi : i < data.length := lt_length_of_getElem? (by rw [← get?_eq_getElem?]; exact hb)
  have hsub : data.length - i = (data.length - (i + 1)) + 1 := by omega
  rw [beRun, hsub, blockEndGo, hb]
  simp only [beq_eq_false_iff_ne.mpr h34, beq_eq_false_iff_ne.mpr ho,
    beq_eq_false_iff_ne.mpr hc, Bool.false_eq_true, if_false]
  rfl

theorem beRun_step_quote {data : List Nat} {o c : Nat} {i se : Nat} {level : Int}
    (hb : data.get? i = some 34)
    (hse : (stringEnd (data.drop (i + 1))).1 = some se) :
    beRun data o c i level = beRun data o c (i + se + 1) level := by
  have hi : i < data.length := lt_length_of_getElem? (by rw [← get?_eq_getElem?]; exact hb)
  have hsub : data.length - i = (data.length - (i + 1)) + 1 := by omega
  rw [beRun, hsub, blockEndGo, hb]
  simp only [beq_self_eq_true, if_true, hse]
  exact blockEndGo_eq_beRun (by omega)

theorem beRun_step_open {data : List Nat} {o c : Nat} {i : Nat} {level : Int}
    (hb : data.get? i = some o) (h34 : o ≠ 34) :
    beRun data o c i level = beRun data o c (i + 1) (level + 1) := by
  have hi : i < data.length := lt_length_of_getElem? (by rw [← get?_eq_getElem?]; exact hb)
  have hsub : data.length - i = (data.length - (i + 1)) + 1 := by omega
  rw [beRun, hsub, blockEndGo, hb]
  simp only [beq_eq_false_iff_ne.mpr h34, Bool.false_eq_true, if_false,
    beq_self_eq_true, if_true]
  rfl

theorem beRun_step_close {data : List Nat} {o c : Nat} {i : Nat} {level : Int}
    (hb : data.get? i = some c) (h34 : c ≠ 34) (ho : c ≠ o) (hl : ¬ level - 1 = 0) :
    beRun data o c i level = beRun data o c (i + 1) (level - 1) := by
  have hi : i < data.length := lt_length_of_getElem? (by rw [← get?_eq_getElem?]; exact hb)
  have hsub : data.length - i = (data.length - (i + 1)) + 1 := by omega
  rw [beRun, hsub, blockEndGo, hb]
  simp only [beq_eq_false_iff_ne.mpr h34, beq_eq_false_iff_ne.mpr ho,
    Bool.false_eq_true, if_false, beq_self_eq_true, if_true,
    beq_eq_false_iff_ne.mpr hl, if_neg (by simpa using hl)]
  rfl

theorem beRun_step_close_done {data : List Nat} {o c : Nat} {i : Nat} {level : Int}
    (hb : data.get? i = some c) (h34 : c ≠ 34) (ho : c ≠ o) (hl : level - 1 = 0) :
    beRun data o c i level = some (i + 1) := by
  have hi : i < data.length := lt_length_of_getElem? (by rw [← get?_eq_getElem?]; exact hb)
  have hsub : data.length - i = (data.length - (i + 1)) + 1 := by omega
  rw [beRun, hsub, blockEndGo, hb]
  simp only [beq_eq_false_iff_ne.mpr h34, beq_eq_false_iff_ne.mpr ho,
    Bool.false_eq_true, if_false, beq_self_eq_true, if_true]
  rw [if_pos (by simpa using hl)]

theorem scalOKB_plain {bs : List Nat} (h : scalOKB bs = true) :
    ∀ b ∈ bs, plainB b = true := by
  rw [scalOKB] at h
  simp only [Bool.or_eq_true, Bool.and_eq_true, beq_iff_eq] at h
  rcases h with ((h | h) | h) | h
  · subst h; decide
  · subst h; decide
  · subst h; decide
  · intro b hb
    have := h.2
    rw [List.all_eq_true] at this
    exact this b hb

/-- Skipping a run of plain bytes leaves the blockEnd scan state unchanged. -/
theorem beRun_skip_plain {o c : Nat}
    (hoc : (o = 91 ∧ c = 93) ∨ (o = 123 ∧ c = 125)) :
    ∀ (bs : List Nat) (data rest : List Nat) (i : Nat) (level : Int),
      (∀ b ∈ bs, plainB b = true) →
      data.drop i = bs ++ rest →
      beRun data o c i level = beRun data o c (i + bs.length) level := by
  intro bs
  induction bs with
  | nil => intro data rest i level _ _; rfl
  | cons b bs ih =>
    intro data rest i level hpl hd
    obtain ⟨h34, _, h123, h125, h91, h93, _, _, _⟩ := plainB_facts (hpl b (by simp))
    have hstep : beRun data o c i level = beRun data o c (i + 1) level := by
      apply beRun_step_default (get?_of_drop (by simpa using hd)) h34
      · rcases hoc with ⟨rfl, rfl⟩ | ⟨rfl, rfl⟩
        · exact h91
        · exact h123
      · rcases hoc with ⟨rfl, rfl⟩ | ⟨rfl, rfl⟩
        · exact h93
        · exact h125
    rw [hstep, ih data rest (i + 1) level (fun d hd' => hpl d (by simp [hd']))
      (drop_succ_of_drop (by simpa using hd))]
    congr 1
    simp
    omega

mutual

theorem beSkipV (v : Jv) : ∀ (data rest : List Nat) (o c i : Nat) (level : Int),
    wfJ v = true →
    data.drop i = ser v ++ rest →
    ((o = 91 ∧ c = 93) ∨ (o = 123 ∧ c = 125)) →
    1 ≤ level →
    beRun data o c i level = beRun data o c (i + (ser v).length) level := by
  intro data rest o c i level hwf hd hoc hl
  cases v with
  | scal bs =>
    rw [wfJ] at hwf
    exact beRun_skip_plain hoc bs data rest i level (scalOKB_plain hwf) (by simpa [ser] using hd)
  | str bs =>
    rw [wfJ] at hwf
    have hd' : data.drop i = 34 :: (bs ++ 34 :: rest) := by
      rw [hd]; simp [ser]
    have hdrop1 : data.drop (i + 1) = bs ++ 34 :: rest := drop_succ_of_drop hd'
    have hse : (stringEnd (data.drop (i + 1))).1 = some (bs.length + 1) := by
      rw [hdrop1, stringEnd_plain hwf]
    rw [beRun_step_quote (get?_of_drop hd') hse]
    congr 1
    simp [ser]
    omega
  | arr els =>
    rw [wfJ] at hwf
    have hd' : data.drop i = 91 :: (serEls els ++ 93 :: rest) := by
      rw [hd]; simp [ser]
    have hdrop1 : data.drop (i + 1) = serEls els ++ 93 :: rest := drop_succ_of_drop hd'
    have hdropEnd : data.drop (i + 1 + (serEls els).length) = 93 :: rest :=
      drop_append_of_drop hdrop1
    rcases hoc with ⟨rfl, rfl⟩ | ⟨rfl, rfl⟩
    · rw [beRun_step_open (get?_of_drop hd') (by omega),
        beSkipEls els data (93 :: rest) 91 93 (i + 1) (level + 1) hwf hdrop1
          (Or.inl ⟨rfl, rfl⟩) (by omega),
        beRun_step_close (get?_of_drop hdropEnd) (by omega) (by omega) (by omega)]
      have harith : level + 1 - 1 = level := by omega
      rw [harith]
      congr 1
      simp [ser]
      omega
    · rw [beRun_step_default (get?_of_drop hd') (by omega) (by omega) (by omega),
        beSkipEls els data (93 :: rest) 123 125 (i + 1) level hwf hdrop1
          (Or.inr ⟨rfl, rfl⟩) (by omega),
        beRun_step_default (get?_of_drop hdropEnd) (by omega) (by omega) (by omega)]
      congr 1
      simp [ser]
      omega
  | obj mems =>
    rw [wfJ] at hwf
    have hd' : data.drop i = 123 :: (serMems mems ++ 125 :: rest) := by
      rw [hd]; simp [ser]
    have hdrop1 : data.drop (i + 1) = serMems mems ++ 125 :: rest := drop_succ_of_drop hd'
    have hdropEnd : data.drop (i + 1 + (serMems mems).length) = 125 :: rest :=
      drop_append_of_drop hdrop1
    rcases hoc with ⟨rfl, rfl⟩ | ⟨rfl, rfl⟩
    · rw [beRun_step_default (get?_of_drop hd') (by omega) (by omega) (by omega),
        beSkipMems mems data (125 :: rest) 91 93 (i + 1) level hwf hdrop1
          (Or.inl ⟨rfl, rfl⟩) (by omega),
        beRun_step_default (get?_of_drop hdropEnd) (by omega) (by omega) (by omega)]
      congr 1
      simp [ser]
      omega
    · rw [beRun_step_open (get?_of_drop hd') (by omega),
        beSkipMems mems data (125 :: rest) 123 125 (i + 1) (level + 1) hwf hdrop1
          (Or.inr ⟨rfl, rfl⟩) (by omega),
        beRun_step_close (get?_of_drop hdropEnd) (by omega) (by omega) (by omega)]
      have harith : level + 1 - 1 = level := by omega
      rw [harith]
      congr 1
      simp [ser]
      omega

theorem beSkipEls (els : List Jv) : ∀ (data rest : List Nat) (o c i : Nat) (level : Int),
    wfEls els = true →
    data.drop i = serEls els ++ rest →
    ((o = 91 ∧ c = 93) ∨ (o = 123 ∧ c = 125)) →
    1 ≤ level →
    beRun data o c i level = beRun data o c (i + (serEls els).length) level := by
  intro data rest o c i level hwf hd hoc hl
  cases els with
  | nil => simp [serEls]
  | cons v tl =>
    rw [wfEls, Bool.and_eq_true] at hwf
    cases tl with
    | nil =>
      rw [show serEls [v] = ser v from rfl] at hd ⊢
      exact beSkipV v data rest o c i level hwf.1 hd hoc hl
    | cons w tl2 =>
      rw [show serEls (v :: w :: tl2) = ser v ++ 44 :: serEls (w :: tl2) from rfl] at hd ⊢
      have hd1 : data.drop i = ser v ++ (44 :: serEls (w :: tl2) ++ rest) := by
        rw [hd]; simp
      have hstep1 := beSkipV v data (44 :: serEls (w :: tl2) ++ rest) o c i level
        hwf.1 hd1 hoc hl
      have hd2 : data.drop (i + (ser v).length) = 44 :: (serEls (w :: tl2) ++ rest) := by
        have := drop_append_of_drop hd1
        simpa using this
      have hstep2 : beRun data o c (i + (ser v).length) level =
          beRun data o c (i + (ser v).length + 1) level := by
        apply beRun_step_default (get?_of_drop hd2) (by omega)
        · rcases hoc with ⟨rfl, rfl⟩ | ⟨rfl, rfl⟩ <;> omega
        · rcases hoc with ⟨rfl, rfl⟩ | ⟨rfl, rfl⟩ <;> omega
      have hd3 : data.drop (i + (ser v).length + 1) = serEls (w :: tl2) ++ rest :=
        drop_succ_of_drop hd2
      rw [hstep1, hstep2,
        beSkipEls (w :: tl2) data rest o c (i + (ser v).length + 1) level hwf.2 hd3 hoc hl]
      congr 1
      simp
      omega

theorem beSkipMems (mems : List (List Nat × Jv)) :
    ∀ (data rest : List Nat) (o c i : Nat) (level : Int),
    wfMems mems = true →
    data.drop i = serMems mems ++ rest →
    ((o = 91 ∧ c = 93) ∨ (o = 123 ∧ c = 125)) →
    1 ≤ level →
    beRun data o c i level = beRun data o c (i + (serMems mems).length) level := by
  intro data rest o c i level hwf hd hoc hl
  cases mems with
  | nil => simp [serMems]
  | cons kv tl =>
    obtain ⟨k, v⟩ := kv
    rw [wfMems, Bool.and_eq_true, Bool.and_eq_true] at hwf
    obtain ⟨⟨hk, hv⟩, htl⟩ := hwf
    have hmain : ∀ after : List Nat,
        data.drop i = (34 :: (k ++ [34, 58]) ++ ser v) ++ after →
        beRun data o c i level =
          beRun data o c (i + (k.length + 3 + (ser v).length)) level := by
      intro after hda
      have hd' : data.drop i = 34 :: (k ++ 34 :: 58 :: (ser v ++ after)) := by
        rw [hda]; simp
      have hdrop1 : data.drop (i + 1) = k ++ 34 :: (58 :: (ser v ++ after)) :=
        drop_succ_of_drop hd'
      have hse : (stringEnd (data.drop (i + 1))).1 = some (k.length + 1) := by
        rw [hdrop1, stringEnd_plain hk]
      have h1 : beRun data o c i level = beRun data o c (i + (k.length + 1) + 1) level :=
        beRun_step_quote (get?_of_drop hd') hse
      have hdrop2 : data.drop (i + 1 + (k.length + 1)) = 58 :: (ser v ++ after) := by
        have := drop_append_of_drop (t := 34 :: (58 :: (ser v ++ after))) hdrop1
        have h2 := drop_succ_of_drop this
        have harr : i + 1 + k.length + 1 = i + 1 + (k.length + 1) := by omega
        rw [← harr]
        exact h2
      have hdrop2' : data.drop (i + (k.length + 1) + 1) = 58 :: (ser v ++ after) := by
        have harr : i + (k.length + 1) + 1 = i + 1 + (k.length + 1) := by omega
        rw [harr]
        exact hdrop2
      have h2 : beRun data o c (i + (k.length + 1) + 1) level =
          beRun data o c (i + (k.length + 1) + 1 + 1) level := by
        apply beRun_step_default (get?_of_drop hdrop2') (by omega)
        · rcases hoc with ⟨rfl, rfl⟩ | ⟨rfl, rfl⟩ <;> omega
        · rcases hoc with ⟨rfl, rfl⟩ | ⟨rfl, rfl⟩ <;> omega
      have hdrop3 : data.drop (i + (k.length + 1) + 1 + 1) = ser v ++ after :=
        drop_succ_of_drop hdrop2'
      have h3 := beSkipV v data after o c (i + (k.length + 1) + 1 + 1) level hv hdrop3 hoc hl
      rw [h1, h2, h3]
      congr 1
      omega
    cases tl with
    | nil =>
      have hda : data.drop i = (34 :: (k ++ [34, 58]) ++ ser v) ++ rest := by
        rw [show serMems [(k, v)] = 34 :: (k ++ [34, 58]) ++ ser v from rfl] at hd
        exact hd
      rw [hmain rest hda]
      congr 1
      simp [serMems]
      omega
    | cons m tl2 =>
      rw [show serMems ((k, v) :: m :: tl2) =
        (34 :: (k ++ [34, 58]) ++ ser v) ++ 44 :: serMems (m :: tl2) from rfl] at hd
      have hda : data.drop i =
          (34 :: (k ++ [34, 58]) ++ ser v) ++ (44 :: serMems (m :: tl2) ++ rest) := by
        rw [hd]; simp
      have h1 := hmain (44 :: serMems (m :: tl2) ++ rest) hda
      have hd2 : data.drop (i + (k.length + 3 + (ser v).length)) =
          44 :: (serMems (m :: tl2) ++ rest) := by
        have := drop_append_of_drop hda
        have harr : i + (34 :: (k ++ [34, 58]) ++ ser v).length =
            i + (k.length + 3 + (ser v).length) := by simp; omega
        rw [harr] at this
        simpa using this
      have h2 : beRun data o c (i + (k.length + 3 + (ser v).length)) level =
          beRun data o c (i + (k.length + 3 + (ser v).length) + 1) level := by
        apply beRun_step_default (get?_of_drop hd2) (by omega)
        · rcases hoc with ⟨rfl, rfl⟩ | ⟨rfl, rfl⟩ <;> omega
        · rcases hoc with ⟨rfl, rfl⟩ | ⟨rfl, rfl⟩ <;> omega
      have hd3 : data.drop (i + (k.length + 3 + (ser v).length) + 1) =
          serMems (m :: tl2) ++ rest := drop_succ_of_drop hd2
      have h3 := beSkipMems (m :: tl2) data rest o c
        (i + (k.length + 3 + (ser v).length) + 1) level htl hd3 hoc hl
      rw [h1, h2, h3]
      congr 1
      simp [serMems]
      omega

end

/-! ## blockEnd over a whole serialized block -/

theorem blockEnd_ser_arr (els : List Jv) (rest : List Nat) (hwf : wfEls els = true) :
    blockEnd (ser (Jv.arr els) ++ rest) 91 93 = some (ser (Jv.arr els)).length := by
  have hd0 : (ser (Jv.arr els) ++ rest).drop 0 = 91 :: (serEls els ++ 93 :: rest) := by
    simp [ser]
  have h0 : blockEnd (ser (Jv.arr els) ++ rest) 91 93 =
      beRun (ser (Jv.arr els) ++ rest) 91 93 0 0 := by
    rw [blockEnd, beRun, Nat.sub_zero]
  have hd1 : (ser (Jv.arr els) ++ rest).drop (0 + 1) = serEls els ++ 93 :: rest := by
    exact drop_succ_of_drop hd0
  have hdE : (ser (Jv.arr els) ++ rest).drop (0 + 1 + (serEls els).length) = 93 :: rest :=
    drop_append_of_drop hd1
  rw [h0, beRun_step_open (get?_of_drop hd0) (by omega),
    beSkipEls els (ser (Jv.arr els) ++ rest) (93 :: rest) 91 93 (0 + 1) (0 + 1) hwf hd1
      (Or.inl ⟨rfl, rfl⟩) (by omega),
    beRun_step_close_done (get?_of_drop hdE) (by omega) (by omega) (by omega)]
  congr 1
  simp [ser]
  omega

theorem blockEnd_ser_obj (mems : List (List Nat × Jv)) (rest : List Nat)
    (hwf : wfMems mems = true) :
    blockEnd (ser (Jv.obj mems) ++ rest) 123 125 = some (ser (Jv.obj mems)).length := by
  have hd0 : (ser (Jv.obj mems) ++ rest).drop 0 = 123 :: (serMems mems ++ 125 :: rest) := by
    simp [ser]
  have h0 : blockEnd (ser (Jv.obj mems) ++ rest) 123 125 =
      beRun (ser (Jv.obj mems) ++ rest) 123 125 0 0 := by
    rw [blockEnd, beRun, Nat.sub_zero]
  have hd1 : (ser (Jv.obj mems) ++ rest).drop (0 + 1) = serMems mems ++ 125 :: rest := by
    exact drop_succ_of_drop hd0
  have hdE : (ser (Jv.obj mems) ++ rest).drop (0 + 1 + (serMems mems).length) =
      125 :: rest := drop_append_of_drop hd1
  rw [h0, beRun_step_open (get?_of_drop hd0) (by omega),
    beSkipMems mems (ser (Jv.obj mems) ++ rest) (125 :: rest) 123 125 (0 + 1) (0 + 1) hwf hd1
      (Or.inr ⟨rfl, rfl⟩) (by omega),
    beRun_step_close_done (get?_of_drop hdE) (by omega) (by omega) (by omega)]
  congr 1
  simp [ser]
  omega

/-! ## get on a serialized value -/

theorem nextToken_cons {c : Nat} {t : List Nat} (h : isSpaceB c = false) :
    nextToken (c :: t) = some 0 := by
  rw [nextToken, if_neg (by simp [h])]

theorem jvalue_len_le (v : Jv) : (jvalue v).length ≤ (ser v).length := by
  cases v with
  | scal bs =>
    rw [jvalue, ser]
    split
    · simp
    · exact le_refl _
  | str bs =>
    rw [jvalue, ser]
    simp
    omega
  | arr els => simp [jvalue]
  | obj mems => simp [jvalue]

theorem jkind_ne_NotExist (v : Jv) : jkind v ≠ ValueType.NotExist := by
  cases v with
  | scal bs =>
    rw [jkind]
    split
    · decide
    · split
      · decide
      · decide
  | str bs => rw [jkind]; decide
  | arr els => rw [jkind]; decide
  | obj mems => rw [jkind]; decide

/-- get with the empty path on a serialized well-formed value followed by a
terminator (or nothing): value bytes, kind and end offset as the value
dictates. -/
theorem get0_ser (v : Jv) (rest : List Nat) (hwf : wfJ v = true)
    (hterm : rest = [] ∨ ∃ b t, rest = b :: t ∧ isTermB b = true) :
    get0 (ser v ++ rest) = ⟨jvalue v, jkind v, (((ser v).length : Nat) : Int), none⟩ := by
  cases v with
  | scal bs =>
    rw [wfJ, scalOKB] at hwf
    simp only [Bool.or_eq_true, Bool.and_eq_true, beq_iff_eq] at hwf
    have htok : (∀ c ∈ bs, isTermB c = false) → tokenEnd (bs ++ rest) = bs.length := by
      intro hnt
      rcases hterm with rfl | ⟨b, t, rfl, hb⟩
      · rw [List.append_nil]; exact tokenEnd_all_nonterm hnt
      · exact tokenEnd_append_term hnt hb
    rcases hwf with ((rfl | rfl) | rfl) | hnum
    · have hnt : nextToken (trueLit ++ rest) = some 0 := by
        rw [show trueLit ++ rest = 116 :: ([114, 117, 101] ++ rest) from rfl]
        exact nextToken_cons (by decide)
      have htok' : tokenEnd (trueLit ++ rest) = 4 := htok (by decide)
      have hgd : (trueLit ++ rest).getD 0 0 = 116 := rfl
      have hext : extract (trueLit ++ rest) 0 4 = trueLit := by
        rw [extract, List.drop_zero, Nat.sub_zero,
          show (4 : Nat) = trueLit.length from rfl, List.take_left]
      rw [ser, get0, getFrom, List.drop_zero, hnt]
      simp only [Nat.zero_add, Nat.add_zero, List.drop_zero, hgd, htok', hext]
      simp [jvalue, jkind, trueLit, falseLit, nullLit]
    · have hnt : nextToken (falseLit ++ rest) = some 0 := by
        rw [show falseLit ++ rest = 102 :: ([97, 108, 115, 101] ++ rest) from rfl]
        exact nextToken_cons (by decide)
      have htok' : tokenEnd (falseLit ++ rest) = 5 := htok (by decide)
      have hgd : (falseLit ++ rest).getD 0 0 = 102 := rfl
      have hext : extract (falseLit ++ rest) 0 5 = falseLit := by
        rw [extract, List.drop_zero, Nat.sub_zero,
          show (5 : Nat) = falseLit.length from rfl, List.take_left]
      rw [ser, get0, getFrom, List.drop_zero, hnt]
      simp only [Nat.zero_add, Nat.add_zero, List.drop_zero, hgd, htok', hext]
      simp [jvalue, jkind, trueLit, falseLit, nullLit]
    · have hnt : nextToken (nullLit ++ rest) = some 0 := by
        rw [show nullLit ++ rest = 110 :: ([117, 108, 108] ++ rest) from rfl]
        exact nextToken_cons (by decide)
      have htok' : tokenEnd (nullLit ++ rest) = 4 := htok (by decide)
      have hgd : (nullLit ++ rest).getD 0 0 = 110 := rfl
      have hext : extract (nullLit ++ rest) 0 4 = nullLit := by
        rw [extract, List.drop_zero, Nat.sub_zero,
          show (4 : Nat) = nullLit.length from rfl, List.take_left]
      rw [ser, get0, getFrom, List.drop_zero, hnt]
      simp only [Nat.zero_add, Nat.add_zero, List.drop_zero, hgd, htok', hext]
      simp [jvalue, jkind, trueLit, falseLit, nullLit]
    · obtain ⟨⟨hne, hhead⟩, hall⟩ := hnum
      obtain ⟨d, tl, rfl⟩ : ∃ d tl, bs = d :: tl := by
        cases bs with
        | nil => simp at hne
        | cons d tl => exact ⟨d, tl, rfl⟩
      have hdrd : (48 ≤ d ∧ d ≤ 57) ∨ d = 45 := by
        rcases hhead with hh | hh
        · rw [List.headD_cons] at hh
          rw [isDigitB, Bool.and_eq_true, decide_eq_true_eq, decide_eq_true_eq] at hh
          exact Or.inl hh
        · rw [List.headD_cons] at hh
          exact Or.inr hh
      have hdr : 45 ≤ d ∧ d ≤ 57 := by
        rcases hdrd with ⟨h1, h2⟩ | rfl <;> omega
      have hallp : ∀ c ∈ d :: tl, plainB c = true := by
        rw [List.all_eq_true] at hall
        exact hall
      have hterm' : ∀ c ∈ d :: tl, isTermB c = false :=
        fun c hc => plainB_not_term (hallp c hc)
      have htok' : tokenEnd ((d :: tl) ++ rest) = tl.length + 1 := by
        rw [htok hterm']
        simp
      have hnt : nextToken ((d :: tl) ++ rest) = some 0 := by
        rw [List.cons_append]
        exact nextToken_cons (plainB_not_space (hallp d (by simp)))
      have hgd : ((d :: tl) ++ rest).getD 0 0 = d := by
        rw [List.cons_append]
        rfl
      have hext : extract ((d :: tl) ++ rest) 0 (tl.length + 1) = d :: tl := by
        rw [extract, List.drop_zero, Nat.sub_zero,
          show tl.length + 1 = (d :: tl).length from rfl, List.take_left]
      have hjv : jvalue (Jv.scal (d :: tl)) = d :: tl := by
        rw [jvalue, if_neg]
        simp only [beq_iff_eq]
        intro hcon
        rw [show nullLit = 110 :: [117, 108, 108] from rfl] at hcon
        have : d = 110 := (List.cons.injEq _ _ _ _ ▸ hcon).1
        omega
      have hjk : jkind (Jv.scal (d :: tl)) = ValueType.Number := by
        rw [jkind, if_neg, if_neg]
        · simp only [beq_iff_eq]
          intro hcon
          rw [show nullLit = 110 :: [117, 108, 108] from rfl] at hcon
          have : d = 110 := (List.cons.injEq _ _ _ _ ▸ hcon).1
          omega
        · simp only [Bool.or_eq_true, beq_iff_eq]
          rintro (hcon | hcon)
          · rw [show trueLit = 116 :: [114, 117, 101] from rfl] at hcon
            have : d = 116 := (List.cons.injEq _ _ _ _ ▸ hcon).1
            omega
          · rw [show falseLit = 102 :: [97, 108, 115, 101] from rfl] at hcon
            have : d = 102 := (List.cons.injEq _ _ _ _ ▸ hcon).1
            omega
      have hc34 : ¬((d == 34) = true) := by simp only [beq_iff_eq]; omega
      have hc91 : ¬((d == 91) = true) := by simp only [beq_iff_eq]; omega
      have hc123 : ¬((d == 123) = true) := by simp only [beq_iff_eq]; omega
      have hc116 : ¬((d == 116 || d == 102) = true) := by
        simp only [Bool.or_eq_true, beq_iff_eq]
        omega
      have hc117 : ¬((d == 117 || d == 110) = true) := by
        simp only [Bool.or_eq_true, beq_iff_eq]
        omega
      have hcnum : (decide (48 ≤ d) && decide (d ≤ 57) || d == 45) = true := by
        simp only [Bool.or_eq_true, Bool.and_eq_true, decide_eq_true_eq, beq_iff_eq]
        rcases hdrd with ⟨h1, h2⟩ | rfl
        · exact Or.inl ⟨h1, h2⟩
        · exact Or.inr rfl
      rw [ser, get0, getFrom, List.drop_zero, hnt]
      simp only [Nat.zero_add, Nat.add_zero, List.drop_zero, hgd, htok', hext]
      rw [if_neg hc34, if_neg hc91, if_neg hc123, if_neg hc116, if_neg hc117,
        if_pos hcnum, hjv, hjk]
      simp [ser]
  | str bs =>
    rw [wfJ] at hwf
    have hd : ser (Jv.str bs) ++ rest = 34 :: (bs ++ 34 :: rest) := by
      rw [ser]; simp
    have hse : (stringEnd (bs ++ 34 :: rest)).1 = some (bs.length + 1) := by
      rw [stringEnd_plain hwf]
    have hgd : (34 :: (bs ++ 34 :: rest) : List Nat).getD 0 0 = 34 := rfl
    have hext : extract (34 :: (bs ++ 34 :: rest)) 1 (bs.length + 1) = bs := by
      rw [extract, show (34 :: (bs ++ 34 :: rest) : List Nat).drop 1 = bs ++ 34 :: rest
        from rfl, Nat.add_sub_cancel]
      exact List.take_left bs (34 :: rest)
    rw [get0, hd, getFrom, List.drop_zero, nextToken_cons (show isSpaceB 34 = false by decide)]
    simp only [Nat.zero_add, Nat.add_zero, List.drop_zero, List.drop_succ_cons, hgd]
    rw [if_pos (by decide)]
    simp only [hse, hext]
    simp [jvalue, jkind, ser]
  | arr els =>
    rw [wfJ] at hwf
    have hbe := blockEnd_ser_arr els rest hwf
    have ht : ser (Jv.arr els) ++ rest = 91 :: (serEls els ++ 93 :: rest) := by
      simp [ser]
    have hnt : nextToken (ser (Jv.arr els) ++ rest) = some 0 := by
      rw [ht]
      exact nextToken_cons (by decide)
    have hgd : (ser (Jv.arr els) ++ rest).getD 0 0 = 91 := by
      rw [ht]
      rfl
    have hext : extract (ser (Jv.arr els) ++ rest) 0 (ser (Jv.arr els)).length =
        ser (Jv.arr els) := by
      rw [extract, List.drop_zero, Nat.sub_zero, List.take_left]
    rw [get0, getFrom, List.drop_zero, hnt]
    simp only [Nat.zero_add, Nat.add_zero, List.drop_zero, hgd]
    rw [if_neg (by decide), if_pos (by decide), hbe]
    simp only [hext]
    simp [jvalue, jkind]
  | obj mems =>
    rw [wfJ] at hwf
    have hbe := blockEnd_ser_obj mems rest hwf
    have ht : ser (Jv.obj mems) ++ rest = 123 :: (serMems mems ++ 125 :: rest) := by
      simp [ser]
    have hnt : nextToken (ser (Jv.obj mems) ++ rest) = some 0 := by
      rw [ht]
      exact nextToken_cons (by decide)
    have hgd : (ser (Jv.obj mems) ++ rest).getD 0 0 = 123 := by
      rw [ht]
      rfl
    have hext : extract (ser (Jv.obj mems) ++ rest) 0 (ser (Jv.obj mems)).length =
        ser (Jv.obj mems) := by
      rw [extract, List.drop_zero, Nat.sub_zero, List.take_left]
    rw [get0, getFrom, List.drop_zero, hnt]
    simp only [Nat.zero_add, Nat.add_zero, List.drop_zero, hgd]
    rw [if_neg (by decide), if_neg (by decide), if_pos (by decide), hbe]
    simp only [hext]
    simp [jvalue, jkind]

/-! ## arrayEach over a serialized array -/

theorem serEls_len_ge (els : List Jv) (hwf : wfEls els = true) :
    els.length ≤ (serEls els).length := by
  induction els with
  | nil => simp [serEls]
  | cons v tl ih =>
    rw [wfEls, Bool.and_eq_true] at hwf
    have h1 : 1 ≤ (ser v).length := Nat.one_le_iff_ne_zero.mpr (ser_ne_nil v hwf.1)
    cases tl with
    | nil =>
      rw [show serEls [v] = ser v from rfl]
      simpa using h1
    | cons w tl2 =>
      rw [show serEls (v :: w :: tl2) = ser v ++ 44 :: serEls (w :: tl2) from rfl]
      have h2 := ih hwf.2
      simp only [List.length_cons, List.length_append] at h2 ⊢
      omega

theorem arrCalls_length (els : List Jv) : ∀ base, (arrCalls els base).length = els.length := by
  induction els with
  | nil => intro base; rfl
  | cons v tl ih =>
    intro base
    rw [arrCalls, List.length_cons, ih]
    rfl

/-- One pass of the arrayEach loop over serialized well-formed elements whose
scan starts at `off`, with a closing bracket after them: every element is
recorded as in arrCalls and the loop stops at the bracket. -/
theorem aeLoop_ser (data : List Nat) :
    ∀ (els : List Jv) (fuel off : Nat) (acc : List GetRes),
      wfEls els = true →
      data.drop off = serEls els ++ [93] →
      els.length + 1 ≤ fuel →
      arrayEachLoop data fuel ((off : Nat) : Int) acc =
        some (acc.reverse ++ arrCalls els off,
          ((off + (serEls els).length : Nat) : Int), none) := by
  intro els
  induction els with
  | nil =>
    intro fuel off acc _ hd hf
    obtain ⟨f, rfl⟩ : ∃ f, fuel = f + 1 := ⟨fuel - 1, by omega⟩
    have hdrop : data.drop off = [93] := by simpa [serEls] using hd
    have hlt : off < data.length := length_ge_of_drop hdrop
    have hcond0 : (decide (((off : Nat) : Int) < 0) ||
        decide ((data.length : Int) < ((off : Nat) : Int))) = false := by
      simp only [Bool.or_eq_false_iff, decide_eq_false_iff_not]
      omega
    have hget0 : get0 (data.drop off) = ⟨[], .Unknown, 0, some .UnknownValueType⟩ := by
      rw [hdrop]
      rfl
    rw [arrayEachLoop]
    simp only [hcond0, Bool.false_eq_true, if_false,
      show (((off : Nat) : Int)).toNat = off from rfl, hget0]
    simp [serEls, arrCalls]
  | cons v tl ih =>
    intro fuel off acc hwf hd hf
    obtain ⟨f, rfl⟩ : ∃ f, fuel = f + 1 := ⟨fuel - 1, by omega⟩
    rw [wfEls, Bool.and_eq_true] at hwf
    have hL0 : (ser v).length ≠ 0 := ser_ne_nil v hwf.1
    have hbeqL : ((((ser v).length : Nat) : Int) == 0) = false := by
      simp only [beq_eq_false_iff_ne, ne_eq, Nat.cast_eq_zero]
      exact hL0
    have hdt : (jkind v != ValueType.NotExist) = true :=
      bne_iff_ne.mpr (jkind_ne_NotExist v)
    have hoffeq : ∀ m : Nat, ((off + (ser v).length : Nat) : Int) - ((m : Nat) : Int) =
        (((off + (ser v).length - m : Nat)) : Int) ∨ (ser v).length < m := by
      intro m
      by_cases hm : m ≤ off + (ser v).length
      · left; omega
      · right; omega
    cases tl with
    | nil =>
      have hd1 : data.drop off = ser v ++ [93] := by
        rw [hd, show serEls [v] = ser v from rfl]
      have hdrop2 : data.drop (off + (ser v).length) = [93] := drop_append_of_drop hd1
      have hlt : off + (ser v).length < data.length := length_ge_of_drop hdrop2
      have hget0 : get0 (data.drop off) =
          ⟨jvalue v, jkind v, (((ser v).length : Nat) : Int), none⟩ := by
        rw [hd1]
        exact get0_ser v [93] hwf.1 (Or.inr ⟨93, [], rfl, by decide⟩)
      have hcond0 : (decide (((off : Nat) : Int) < 0) ||
          decide ((data.length : Int) < ((off : Nat) : Int))) = false := by
        simp only [Bool.or_eq_false_iff, decide_eq_false_iff_not]
        omega
      have hcond2 : (decide ((((off + (ser v).length : Nat)) : Int) < 0) ||
          decide ((data.length : Int) < (((off + (ser v).length : Nat)) : Int))) = false := by
        simp only [Bool.or_eq_false_iff, decide_eq_false_iff_not]
        omega
      have hnt2 : nextToken (data.drop (off + (ser v).length)) = some 0 := by
        rw [hdrop2]
        exact nextToken_cons (by decide)
      have hgd3 : data.getD (off + (ser v).length) 0 = 93 :=
        getD_of_getElem? (getElem?_of_drop hdrop2)
      have hsub : ((off + (ser v).length : Nat) : Int) - (((jvalue v).length : Nat) : Int) =
          (((off + (ser v).length - (jvalue v).length : Nat)) : Int) := by
        have := jvalue_len_le v
        omega
      rw [arrayEachLoop]
      simp only [hcond0, Bool.false_eq_true, if_false,
        show (((off : Nat) : Int)).toNat = off from rfl, hget0, hbeqL, hdt, if_true,
        Option.isSome_none, ← Nat.cast_add, hcond2,
        show ∀ m : Nat, (((m : Nat) : Int)).toNat = m from fun m => rfl,
        hnt2, Nat.add_zero, hgd3, hsub]
      simp [show serEls [v] = ser v from rfl, arrCalls, serEls, List.reverse_cons]
    | cons w tl2 =>
      have hd1 : data.drop off = ser v ++ (44 :: (serEls (w :: tl2) ++ [93])) := by
        rw [hd, show serEls (v :: w :: tl2) = ser v ++ 44 :: serEls (w :: tl2) from rfl]
        simp
      have hdrop2 : data.drop (off + (ser v).length) = 44 :: (serEls (w :: tl2) ++ [93]) :=
        drop_append_of_drop hd1
      have hlt : off + (ser v).length < data.length := length_ge_of_drop hdrop2
      have hget0 : get0 (data.drop off) =
          ⟨jvalue v, jkind v, (((ser v).length : Nat) : Int), none⟩ := by
        rw [hd1]
        exact get0_ser v (44 :: (serEls (w :: tl2) ++ [93])) hwf.1
          (Or.inr ⟨44, serEls (w :: tl2) ++ [93], rfl, by decide⟩)
      have hcond0 : (decide (((off : Nat) : Int) < 0) ||
          decide ((data.length : Int) < ((off : Nat) : Int))) = false := by
        simp only [Bool.or_eq_false_iff, decide_eq_false_iff_not]
        omega
      have hcond2 : (decide ((((off + (ser v).length : Nat)) : Int) < 0) ||
          decide ((data.length : Int) < (((off + (ser v).length : Nat)) : Int))) = false := by
        simp only [Bool.or_eq_false_iff, decide_eq_false_iff_not]
        omega
      have hnt2 : nextToken (data.drop (off + (ser v).length)) = some 0 := by
        rw [hdrop2]
        exact nextToken_cons (by decide)
      have hgd3 : data.getD (off + (ser v).length) 0 = 44 :=
        getD_of_getElem? (getElem?_of_drop hdrop2)
      have hsub : ((off + (ser v).length : Nat) : Int) - (((jvalue v).length : Nat) : Int) =
          (((off + (ser v).length - (jvalue v).length : Nat)) : Int) := by
        have := jvalue_len_le v
        omega
      have hd3 : data.drop (off + (ser v).length + 1) = serEls (w :: tl2) ++ [93] :=
        drop_succ_of_drop hdrop2
      have hih := ih f (off + (ser v).length + 1)
        ((⟨jvalue v, jkind v,
            (((off + (ser v).length - (jvalue v).length : Nat)) : Int), none⟩ : GetRes) :: acc)
        hwf.2 hd3 (by simp at hf ⊢; omega)
      rw [arrayEachLoop]
      simp only [hcond0, Bool.false_eq_true, if_false,
        show (((off : Nat) : Int)).toNat = off from rfl, hget0, hbeqL, hdt, if_true,
        Option.isSome_none, ← Nat.cast_add, hcond2,
        show ∀ m : Nat, (((m : Nat) : Int)).toNat = m from fun m => rfl,
        hnt2, Nat.add_zero, hgd3, hsub]
      rw [if_neg (by decide), if_neg (by decide)]
      rw [show (((off + (ser v).length : Nat)) : Int) + 1 =
        (((off + (ser v).length + 1 : Nat)) : Int) from by push_cast; ring]
      rw [hih]
      simp only [List.reverse_cons, List.append_assoc, List.singleton_append]
      rw [show arrCalls (v :: w :: tl2) off =
        (⟨jvalue v, jkind v,
          (((off + (ser v).length - (jvalue v).length : Nat)) : Int), none⟩ : GetRes) ::
          arrCalls (w :: tl2) (off + (ser v).length + 1) from rfl]
      rw [show serEls (v :: w :: tl2) = ser v ++ 44 :: serEls (w :: tl2) from rfl]
      simp only [List.length_append, List.length_cons]
      rw [show off + (ser v).length + 1 + (serEls (w :: tl2)).length =
        off + ((ser v).length + ((serEls (w :: tl2)).length + 1)) from by omega]

theorem arrayEach0_ser (els : List Jv) (hwf : wfEls els = true) :
    arrayEach0 (ser (Jv.arr els)) =
      some (arrCalls els 1, ((1 + (serEls els).length : Nat) : Int), none) := by
  have hlen : (ser (Jv.arr els)).length = (serEls els).length + 2 := by simp [ser]
  have hne : ((ser (Jv.arr els)).length == 0) = false := by
    simp only [beq_eq_false_iff_ne, ne_eq, hlen]
    omega
  have hd : (ser (Jv.arr els)).drop 1 = serEls els ++ [93] := by simp [ser]
  have hfuel : els.length + 1 ≤ (ser (Jv.arr els)).length + 1 := by
    have := serEls_len_ge els hwf
    omega
  have h := aeLoop_ser (ser (Jv.arr els)) els ((ser (Jv.arr els)).length + 1) 1 [] hwf hd hfuel
  rw [arrayEach0]
  simp only [hne, Bool.false_eq_true, if_false]
  rw [show (1 : Int) = ((1 : Nat) : Int) from rfl, h]
  simp

theorem arrayEach_nil_ser (els : List Jv) (hwf : wfEls els = true) :
    arrayEach (ser (Jv.arr els)) [] =
      some (arrCalls els 1, ((1 + (serEls els).length : Nat) : Int), none) := by
  have hlen : (ser (Jv.arr els)).length = (serEls els).length + 2 := by simp [ser]
  have hd : (ser (Jv.arr els)).drop 1 = serEls els ++ [93] := by simp [ser]
  have hfuel : els.length + 1 ≤ (ser (Jv.arr els)).length + 1 := by
    have := serEls_len_ge els hwf
    omega
  have h := aeLoop_ser (ser (Jv.arr els)) els ((ser (Jv.arr els)).length + 1) 1 [] hwf hd hfuel
  rw [arrayEach, if_neg (by simp [hlen]), if_neg (by simp),
    show (1 : Int) = ((1 : Nat) : Int) from rfl, h]
  simp

/-- The k-th recorded callback of arrCalls: the k-th element's value and kind,
with offset the element's end minus the value length. -/
theorem arrCalls_getD (els : List Jv) :
    ∀ (k base : Nat), k < els.length →
      (arrCalls els base).getD k ⟨[], .NotExist, 0, none⟩ =
        ⟨jvalue (els.getD k (.scal nullLit)), jkind (els.getD k (.scal nullLit)),
          ((base + (((els.take k).map (fun v => (ser v).length + 1)).sum) +
            (ser (els.getD k (.scal nullLit))).length -
            (jvalue (els.getD k (.scal nullLit))).length : Nat) : Int), none⟩ := by
  induction els with
  | nil =>
    intro k base hk
    simp at hk
  | cons v tl ih =>
    intro k base hk
    cases k with
    | zero =>
      rw [arrCalls]
      simp
    | succ k =>
      rw [arrCalls]
      have hk' : k < tl.length := by simpa using hk
      have h := ih k (base + (ser v).length + 1) hk'
      simp only [List.getD_cons_succ] at h ⊢
      rw [show ((v :: tl).take (k + 1)).map (fun w => (ser w).length + 1) =
        ((ser v).length + 1) :: (tl.take k).map (fun w => (ser w).length + 1) from by
          simp]
      rw [h]
      congr 2
      simp only [List.sum_cons]
      omega

/-- C7 counterexample: on the buffer ["ab"] the visitor receives offset 3,
but the element's value bytes start at absolute position 2 (and the element's
region at 1): the offset ArrayEach passes is not the start of the value. -/
theorem arrayEach_string_offset_counterexample :
    arrayEach [91, 34, 97, 98, 34, 93] [] =
      some ([⟨[97, 98], ValueType.String, 3, none⟩], 5, none) ∧
    extract [91, 34, 97, 98, 34, 93] 2 4 = [97, 98] ∧
    ((3 : Int) ≠ 2 ∧ (3 : Int) ≠ 1) := by
  refine ⟨by decide, by decide, by decide⟩

/-- C7 amended: over any canonically serialized well-formed array, ArrayEach
records every element in order, and the offset passed to the visitor for the
k-th element is the element's end minus the length of the reported value
bytes (elemCbOff); this equals the absolute start of the element exactly when
the value bytes span the whole element region (Number, Boolean, Object,
Array — not String, whose quotes are stripped, and not Null, whose value is
empty). -/
theorem arrayEach_ser_offsets (els : List Jv) (hwf : wfEls els = true) :
    arrayEach (ser (Jv.arr els)) [] =
      some (arrCalls els 1, ((1 + (serEls els).length : Nat) : Int), none) ∧
    (∀ k, k < els.length →
      ((arrCalls els 1).getD k ⟨[], .NotExist, 0, none⟩).offset =
        ((elemCbOff els k : Nat) : Int)) ∧
    (∀ k, k < els.length →
      (jvalue (els.getD k (Jv.scal nullLit))).length =
        (ser (els.getD k (Jv.scal nullLit))).length →
      ((arrCalls els 1).getD k ⟨[], .NotExist, 0, none⟩).offset =
        ((elemStart els k : Nat) : Int)) := by
  refine ⟨arrayEach_nil_ser els hwf, ?_, ?_⟩
  · intro k hk
    simp only [arrCalls_getD els k 1 hk]
    rw [elemCbOff, elemStart]
  · intro k hk heq
    simp only [arrCalls_getD els k 1 hk]
    rw [elemStart]
    congr 1
    omega

/-- Closed instance of the amended C7 statement on the array [1,"a"]. -/
theorem arrayEach_ser_offsets_witness :
    wfEls [Jv.scal [49], Jv.str [97]] = true ∧
    arrayEach (ser (Jv.arr [Jv.scal [49], Jv.str [97]])) [] =
      some (arrCalls [Jv.scal [49], Jv.str [97]] 1,
        ((1 + (serEls [Jv.scal [49], Jv.str [97]]).length : Nat) : Int), none) ∧
    ((arrCalls [Jv.scal [49], Jv.str [97]] 1).getD 0 ⟨[], .NotExist, 0, none⟩).offset =
      ((elemStart [Jv.scal [49], Jv.str [97]] 0 : Nat) : Int) :=
  ⟨by decide, (arrayEach_ser_offsets [Jv.scal [49], Jv.str [97]] (by decide)).1,
    (arrayEach_ser_offsets [Jv.scal [49], Jv.str [97]] (by decide)).2.2 0 (by decide)
      (by decide)⟩

/-! ## Decimal index segments -/

theorem decDigits_all (n : Nat) : ∀ c ∈ decDigits n, 48 ≤ c ∧ c ≤ 57 := by
  induction n using Nat.strong_induction_on with
  | _ n ih =>
    rw [decDigits]
    split
    · rename_i h
      intro c hc
      simp at hc
      omega
    · rename_i h
      intro c hc
      rw [List.mem_append] at hc
      rcases hc with hc | hc
      · exact ih (n / 10) (Nat.div_lt_self (by omega) (by omega)) c hc
      · simp at hc
        have : n % 10 < 10 := Nat.mod_lt _ (by omega)
        omega

theorem decDigits_head (n : Nat) : ∃ d tl, decDigits n = d :: tl := by
  induction n using Nat.strong_induction_on with
  | _ n ih =>
    rw [decDigits]
    split
    · exact ⟨48 + n, [], rfl⟩
    · rename_i h
      obtain ⟨d, tl, hd⟩ := ih (n / 10) (Nat.div_lt_self (by omega) (by omega))
      exact ⟨d, tl ++ [48 + n % 10], by rw [hd]; rfl⟩

theorem decDigits_foldl (n : Nat) : ∀ a : Nat,
    (decDigits n).foldl (fun acc c => acc * 10 + (c - 48)) a =
      a * 10 ^ (decDigits n).length + n := by
  induction n using Nat.strong_induction_on with
  | _ n ih =>
    intro a
    rw [decDigits]
    split
    · rename_i h
      simp only [List.foldl_cons, List.foldl_nil, List.length_cons, List.length_nil,
        pow_one, Nat.zero_add]
      omega
    · rename_i h
      rw [List.foldl_append, ih (n / 10) (Nat.div_lt_self (by omega) (by omega)) a]
      simp only [List.foldl_cons, List.foldl_nil, List.length_append, List.length_cons,
        List.length_nil, Nat.zero_add]
      rw [pow_succ]
      have hmod : 48 + n % 10 - 48 = n % 10 := by omega
      rw [hmod]
      calc (a * 10 ^ (decDigits (n / 10)).length + n / 10) * 10 + n % 10
          = a * (10 ^ (decDigits (n / 10)).length * 10) + (n / 10 * 10 + n % 10) := by ring
        _ = a * (10 ^ (decDigits (n / 10)).length * 10) + n := by
              congr 1
              omega

/-- Atoi (with the error ignored) inverts the decimal rendering for any index
that fits in an int64. -/
theorem atoiIgn_decDigits (k : Nat) (hk : (k : Int) ≤ 9223372036854775807) :
    atoiIgn (decDigits k) = (k : Int) := by
  obtain ⟨d, tl, hd⟩ := decDigits_head k
  have hdd := decDigits_all k d (by rw [hd]; simp)
  have hall : (d :: tl).all isDigitB = true := by
    rw [List.all_eq_true]
    intro c hc
    have := decDigits_all k c (by rw [hd]; exact hc)
    rw [isDigitB, Bool.and_eq_true, decide_eq_true_eq, decide_eq_true_eq]
    omega
  have hfold : (d :: tl).foldl (fun a c => a * 10 + (c - 48)) 0 = k := by
    have h := decDigits_foldl k 0
    rw [hd] at h
    simpa using h
  rw [hd, atoiIgn]
  simp only [show ((d == 45) = true) = (d = 45) from by simp,
    show ((d == 43) = true) = (d = 43) from by simp]
  rw [if_neg (by omega), if_neg (by omega)]
  simp only [List.isEmpty_cons, hall, Bool.not_true, Bool.or_false, Bool.false_eq_true,
    if_false, hfold]
  rw [if_neg (by omega)]

/-- One step of searchKeys on a serialized array with a decimal index
segment: out-of-range indices give -1, in-range indices recurse into the
selected element's value bytes, shifting the recursive result by the
element's callback offset. -/
theorem searchKeys_arr_step (els : List Jv) (k : Nat) (suffix : List (List Nat))
    (hwf : wfEls els = true) (hk : (k : Int) ≤ 9223372036854775807) :
    searchKeys (ser (Jv.arr els)) ((91 :: (decDigits k ++ [93])) :: suffix) =
      if k < els.length then
        match searchKeys (jvalue (els.getD k (Jv.scal nullLit))) suffix with
        | none => none
        | some r => some (((elemCbOff els k : Nat) : Int) + r)
      else some (-1) := by
  have hser : ser (Jv.arr els) = 91 :: (serEls els ++ [93]) := by simp [ser]
  obtain ⟨d0, tl0, hdd⟩ := decDigits_head k
  have hlen2 : ((decDigits k ++ [93]).length == 0) = false := by
    rw [hdd]
    simp
  have hg : (ser (Jv.arr els)).get? 0 = some 91 := by rw [hser]; rfl
  obtain ⟨f, hf⟩ : ∃ f, (ser (Jv.arr els)).length = f + 1 :=
    ⟨(serEls els).length + 1, by rw [hser]; simp⟩
  have hext : extract (91 :: (decDigits k ++ [93])) 1
      ((91 :: (decDigits k ++ [93])).length - 1) = decDigits k := by
    rw [extract,
      show (91 :: (decDigits k ++ [93]) : List Nat).drop 1 = decDigits k ++ [93] from rfl,
      show (91 :: (decDigits k ++ [93]) : List Nat).length - 1 - 1 = (decDigits k).length
        from by simp,
      List.take_left]
  have hatoi := atoiIgn_decDigits k hk
  have hlenpos : (decide (((((91 :: (decDigits k ++ [93])) :: suffix).length : Nat) : Int)
      ≤ (0 : Int))) = false := by
    simp only [decide_eq_false_iff_not, not_le, List.length_cons]
    omega
  rw [searchKeys, searchKeysD, if_neg (by simp), hf, searchKeysGo, hg]
  simp only [show ((91 : Nat) == 34) = false from rfl,
    show ((91 : Nat) == 123) = false from rfl, show ((91 : Nat) == 125) = false from rfl,
    show ((91 : Nat) == 91) = true from rfl, show (((0 : Int)) == (0 : Int)) = true from rfl,
    show (decide ((0 : Int) < 0)) = false from rfl, hlenpos, Bool.or_false,
    Bool.false_eq_true, if_false, if_true, show ((0 : Int)).toNat = 0 from rfl,
    List.getD_cons_zero, hlen2, hext, hatoi, List.drop_zero, arrayEach0_ser els hwf,
    arrCalls_length els 1]
  by_cases hcase : k < els.length
  · have hcond : (decide (((k : Nat) : Int) < 0) ||
        decide (((els.length : Nat) : Int) ≤ ((k : Nat) : Int))) = false := by
      simp only [Bool.or_eq_false_iff, decide_eq_false_iff_not]
      omega
    have hoff : ((1 + (((els.take k).map (fun v => (ser v).length + 1)).sum) +
        (ser (els.getD k (Jv.scal nullLit))).length -
        (jvalue (els.getD k (Jv.scal nullLit))).length : Nat) : Int) =
        ((elemCbOff els k : Nat) : Int) := by
      rw [elemCbOff, elemStart]
    simp only [hcond, Bool.false_eq_true, if_false,
      show (((k : Nat) : Int)).toNat = k from rfl, arrCalls_getD els k 1 hcase,
      Nat.zero_add, List.drop_succ_cons, List.drop_zero, List.length_cons,
      show searchKeysD (suffix.length + 1) (jvalue (els.getD k (Jv.scal nullLit))) suffix =
        searchKeys (jvalue (els.getD k (Jv.scal nullLit))) suffix from rfl]
    rw [if_pos hcase]
    cases hsk : searchKeys (jvalue (els.getD k (Jv.scal nullLit))) suffix with
    | none => rfl
    | some r =>
      simp only [Nat.cast_zero, zero_add, hoff]
  · have hcond : (decide (((k : Nat) : Int) < 0) ||
        decide (((els.length : Nat) : Int) ≤ ((k : Nat) : Int))) = true := by
      simp only [Bool.or_eq_true, decide_eq_true_eq]
      omega
    simp only [hcond, if_true]
    rw [if_neg hcase]

/-- C5: on a serialized array, a path whose first segment has the exact form
[k] (ASCII decimal k) makes searchKeys select the k-th (0-based) element and
resolve the remaining suffix inside that element's value bytes, shifting the
recursive result back to an absolute offset in the original buffer; and it
yields -1 whenever the array has fewer than k+1 elements (in particular for
every k on an empty array). -/
theorem searchKeys_index_selects_element (els : List Jv) (k : Nat)
    (suffix : List (List Nat)) (hwf : wfEls els = true)
    (hk : (k : Int) ≤ 9223372036854775807) :
    (els.length ≤ k →
      searchKeys (ser (Jv.arr els)) ((91 :: (decDigits k ++ [93])) :: suffix) =
        some (-1)) ∧
    (k < els.length →
      searchKeys (ser (Jv.arr els)) ((91 :: (decDigits k ++ [93])) :: suffix) =
        match searchKeys (jvalue (els.getD k (Jv.scal nullLit))) suffix with
        | none => none
        | some r => some (((elemCbOff els k : Nat) : Int) + r)) := by
  constructor
  · intro hge
    rw [searchKeys_arr_step els k suffix hwf hk, if_neg (by omega)]
  · intro hlt
    rw [searchKeys_arr_step els k suffix hwf hk, if_pos hlt]

/-- Closed instance of C5: on [1,2] the path ["[1]"] resolves to absolute
offset 3, the position of the second element's value. -/
theorem searchKeys_index_selects_element_witness :
    wfEls [Jv.scal [49], Jv.scal [50]] = true ∧
    ((1 : Nat) : Int) ≤ 9223372036854775807 ∧
    searchKeys [91, 49, 44, 50, 93] [[91, 49, 93]] = some 3 := by
  refine ⟨by decide, by decide, ?_⟩
  have hdig : decDigits 1 = [49] := by
    rw [decDigits]
    norm_num
  have h := (searchKeys_index_selects_element [Jv.scal [49], Jv.scal [50]] 1 []
    (by decide) (by decide)).2 (by decide)
  rw [hdig] at h
  exact h.trans (by decide)

/-! ## Fuel invariance and runner steps for searchKeys -/

theorem searchKeysGo_stuck (recur : List Nat → List (List Nat) → Option Int)
    (data : List Nat) (keys : List (List Nat)) :
    ∀ (fuel : Nat) {i : Nat} {K L : Int}, data.length ≤ i →
      searchKeysGo recur data keys fuel i K L = some (-1) := by
  intro fuel
  cases fuel with
  | zero =>
    intro i K L hi
    rw [searchKeysGo, if_pos hi]
  | succ fuel =>
    intro i K L hi
    have hg : data.get? i = none := by
      rw [get?_eq_getElem?]
      exact List.getElem?_eq_none hi
    rw [searchKeysGo, hg]

theorem searchKeysGo_fuelInv {recur : List Nat → List (List Nat) → Option Int}
    {data : List Nat} {keys : List (List Nat)} :
    ∀ {fuel fuel' i : Nat} {K L : Int},
      data.length ≤ i + fuel → data.length ≤ i + fuel' →
      searchKeysGo recur data keys fuel i K L = searchKeysGo recur data keys fuel' i K L := by
  intro fuel
  induction fuel with
  | zero =>
    intro fuel' i K L hf hf'
    rw [searchKeysGo_stuck recur data keys 0 (by omega),
      searchKeysGo_stuck recur data keys fuel' (by omega)]
  | succ fuel ih =>
    intro fuel' i K L hf hf'
    by_cases hi : i < data.length
    · obtain ⟨f', rfl⟩ : ∃ f, fuel' = f + 1 := ⟨fuel' - 1, by omega⟩
      obtain ⟨cc, hcc⟩ : ∃ cc, data.get? i = some cc := by
        rw [get?_eq_getElem?]
        exact ⟨data[i], List.getElem?_eq_getElem hi⟩
      conv_lhs => rw [searchKeysGo]
      conv_rhs => rw [searchKeysGo]
      simp only [hcc]
      by_cases h34 : (cc == 34) = true
      · simp only [h34, if_true]
        cases hse : (stringEnd (data.drop (i + 1))).1 with
        | none => simp only [hse]
        | some strEnd =>
          simp only [hse]
          cases hnt : nextToken (data.drop (i + 1 + strEnd)) with
          | none => simp only [hnt]
          | some vo =>
            simp only [hnt]
            by_cases hcl : (data.getD (i + 1 + strEnd + vo) 0 == 58 && (K == L - 1)) = true
            · simp only [hcl, if_true]
              by_cases hbd : (decide (L - 1 < 0) ||
                  decide ((((keys.length : Nat)) : Int) ≤ L - 1)) = true
              · simp only [hbd, if_true]
              · have hbd' : (decide (L - 1 < 0) ||
                    decide ((((keys.length : Nat)) : Int) ≤ L - 1)) = false := by
                  simpa using hbd
                simp only [hbd', Bool.false_eq_true, if_false]
                cases hun : (if (stringEnd (data.drop (i + 1))).2 then
                    unescape (extract data (i + 1) (i + 1 + strEnd - 1))
                  else some (extract data (i + 1) (i + 1 + strEnd - 1))) with
                | none => simp only [hun]
                | some keyU =>
                  simp only [hun]
                  by_cases heq : equalStr keyU (keys.getD (L - 1).toNat []) = true
                  · simp only [heq, if_true]
                    by_cases hful : ((K + 1) == (((keys.length : Nat)) : Int)) = true
                    · simp only [hful, if_true]
                    · have hful' : ((K + 1) == (((keys.length : Nat)) : Int)) = false := by
                        simpa using hful
                      simp only [hful', Bool.false_eq_true, if_false]
                      exact @ih f' (i + 1 + strEnd + vo + 1) (K + 1) L (by omega) (by omega)
                  · have heq' : equalStr keyU (keys.getD (L - 1).toNat []) = false := by
                      simpa using heq
                    simp only [heq', Bool.false_eq_true, if_false]
                    exact @ih f' (i + 1 + strEnd + vo + 1) K L (by omega) (by omega)
            · have hcl' : (data.getD (i + 1 + strEnd + vo) 0 == 58 && (K == L - 1)) = false := by
                simpa using hcl
              simp only [hcl', Bool.false_eq_true, if_false]
              exact @ih f' (i + 1 + strEnd + vo) K L (by omega) (by omega)
      · have h34' : (cc == 34) = false := by simpa using h34
        simp only [h34', Bool.false_eq_true, if_false]
        by_cases h123 : (cc == 123) = true
        · simp only [h123, if_true]
          exact @ih f' (i + 1) K (L + 1) (by omega) (by omega)
        · have h123' : (cc == 123) = false := by simpa using h123
          simp only [h123', Bool.false_eq_true, if_false]
          by_cases h125 : (cc == 125) = true
          · simp only [h125, if_true]
            by_cases hdec : ((L - 1) == K) = true
            · simp only [hdec, if_true]
              exact @ih f' (i + 1) (K - 1) (L - 1) (by omega) (by omega)
            · have hdec' : ((L - 1) == K) = false := by simpa using hdec
              simp only [hdec', Bool.false_eq_true, if_false]
              exact @ih f' (i + 1) K (L - 1) (by omega) (by omega)
          · have h125' : (cc == 125) = false := by simpa using h125
            simp only [h125', Bool.false_eq_true, if_false]
            by_cases h91 : (cc == 91) = true
            · simp only [h91, if_true]
              by_cases hKL : (K == L) = true
              · simp only [hKL, if_true]
                by_cases hbd : (decide (L < 0) ||
                    decide ((((keys.length : Nat)) : Int) ≤ L)) = true
                · simp only [hbd, if_true]
                · have hbd' : (decide (L < 0) ||
                      decide ((((keys.length : Nat)) : Int) ≤ L)) = false := by
                    simpa using hbd
                  simp only [hbd', Bool.false_eq_true, if_false]
                  cases hseg : keys.getD L.toNat [] with
                  | nil => simp only [hseg]
                  | cons c0 restKey =>
                    simp only [hseg]
                    by_cases hc0 : (c0 == 91) = true
                    · simp only [hc0, if_true]
                    · have hc0' : (c0 == 91) = false := by simpa using hc0
                      simp only [hc0', Bool.false_eq_true, if_false]
                      cases hbe : blockEnd (data.drop i) 91 93 with
                      | none => simp only [hbe]
                      | some sk =>
                        simp only [hbe]
                        have hsk := (blockEnd_close hbe).2.1
                        exact @ih f' (i + sk) K L (by omega) (by omega)
              · have hKL' : (K == L) = false := by simpa using hKL
                simp only [hKL', Bool.false_eq_true, if_false]
                cases hbe : blockEnd (data.drop i) 91 93 with
                | none => simp only [hbe]
                | some sk =>
                  simp only [hbe]
                  have hsk := (blockEnd_close hbe).2.1
                  exact @ih f' (i + sk) K L (by omega) (by omega)
            · have h91' : (cc == 91) = false := by simpa using h91
              simp only [h91', Bool.false_eq_true, if_false]
              exact @ih f' (i + 1) K L (by omega) (by omega)
    · rw [searchKeysGo_stuck recur data keys _ (by omega),
        searchKeysGo_stuck recur data keys _ (by omega)]

theorem searchKeysGo_eq_skRun {recur : List Nat → List (List Nat) → Option Int}
    {data : List Nat} {keys : List (List Nat)} {fuel i : Nat} {K L : Int}
    (hf : data.length ≤ i + fuel) :
    searchKeysGo recur data keys fuel i K L = skRun recur data keys i K L :=
  searchKeysGo_fuelInv hf (by omega)

theorem skRun_end {recur : List Nat → List (List Nat) → Option Int}
    {data : List Nat} {keys : List (List Nat)} {i : Nat} {K L : Int}
    (hi : data.length ≤ i) :
    skRun recur data keys i K L = some (-1) := by
  rw [skRun]
  exact searchKeysGo_stuck recur data keys _ hi

theorem sk_step_default {recur : List Nat → List (List Nat) → Option Int}
    {data : List Nat} {keys : List (List Nat)} {c : Nat} {i : Nat} {K L : Int}
    (hb : data.get? i = some c) (h34 : c ≠ 34) (h123 : c ≠ 123) (h125 : c ≠ 125)
    (h91 : c ≠ 91) :
    skRun recur data keys i K L = skRun recur data keys (i + 1) K L := by
  have hi : i < data.length := lt_length_of_getElem? (by rw [← get?_eq_getElem?]; exact hb)
  have hsub : data.length - i = (data.length - (i + 1)) + 1 := by omega
  rw [skRun, hsub, searchKeysGo, hb]
  simp only [beq_eq_false_iff_ne.mpr h34, beq_eq_false_iff_ne.mpr h123,
    beq_eq_false_iff_ne.mpr h125, beq_eq_false_iff_ne.mpr h91, Bool.false_eq_true, if_false]
  rfl

theorem sk_step_open {recur : List Nat → List (List Nat) → Option Int}
    {data : List Nat} {keys : List (List Nat)} {i : Nat} {K L : Int}
    (hb : data.get? i = some 123) :
    skRun recur data keys i K L = skRun recur data keys (i + 1) K (L + 1) := by
  have hi : i < data.length := lt_length_of_getElem? (by rw [← get?_eq_getElem?]; exact hb)
  have hsub : data.length - i = (data.length - (i + 1)) + 1 := by omega
  rw [skRun, hsub, searchKeysGo, hb]
  simp only [show ((123 : Nat) == 34) = false from rfl,
    show ((123 : Nat) == 123) = true from rfl, Bool.false_eq_true, if_false, if_true]
  rfl

theorem sk_step_close_dec {recur : List Nat → List (List Nat) → Option Int}
    {data : List Nat} {keys : List (List Nat)} {i : Nat} {K L : Int}
    (hb : data.get? i = some 125) (hKL : L - 1 = K) :
    skRun recur data keys i K L = skRun recur data keys (i + 1) (K - 1) (L - 1) := by
  have hi : i < data.length := lt_length_of_getElem? (by rw [← get?_eq_getElem?]; exact hb)
  have hsub : data.length - i = (data.length - (i + 1)) + 1 := by omega
  rw [skRun, hsub, searchKeysGo, hb]
  simp only [show ((125 : Nat) == 34) = false from rfl,
    show ((125 : Nat) == 123) = false from rfl, show ((125 : Nat) == 125) = true from rfl,
    Bool.false_eq_true, if_false, if_true, beq_iff_eq, if_pos hKL]
  rfl

theorem sk_step_close_keep {recur : List Nat → List (List Nat) → Option Int}
    {data : List Nat} {keys : List (List Nat)} {i : Nat} {K L : Int}
    (hb : data.get? i = some 125) (hKL : ¬(L - 1 = K)) :
    skRun recur data keys i K L = skRun recur data keys (i + 1) K (L - 1) := by
  have hi : i < data.length := lt_length_of_getElem? (by rw [← get?_eq_getElem?]; exact hb)
  have hsub : data.length - i = (data.length - (i + 1)) + 1 := by omega
  rw [skRun, hsub, searchKeysGo, hb]
  simp only [show ((125 : Nat) == 34) = false from rfl,
    show ((125 : Nat) == 123) = false from rfl, show ((125 : Nat) == 125) = true from rfl,
    Bool.false_eq_true, if_false, if_true, beq_iff_eq, if_neg hKL]
  rfl

theorem sk_step_arr_skip {recur : List Nat → List (List Nat) → Option Int}
    {data : List Nat} {keys : List (List Nat)} {i sk : Nat} {K L : Int}
    (hb : data.get? i = some 91) (hKL : ¬(K = L))
    (hbe : blockEnd (data.drop i) 91 93 = some sk) :
    skRun recur data keys i K L = skRun recur data keys (i + sk) K L := by
  have hi : i < data.length := lt_length_of_getElem? (by rw [← get?_eq_getElem?]; exact hb)
  have hsk := (blockEnd_close hbe).2.1
  have hsub : data.length - i = (data.length - (i + 1)) + 1 := by omega
  rw [skRun, hsub, searchKeysGo, hb]
  simp only [show ((91 : Nat) == 34) = false from rfl,
    show ((91 : Nat) == 123) = false from rfl, show ((91 : Nat) == 125) = false from rfl,
    show ((91 : Nat) == 91) = true from rfl, Bool.false_eq_true, if_false, if_true,
    beq_iff_eq, if_neg hKL, hbe]
  exact searchKeysGo_eq_skRun (by omega)

theorem sk_step_string_else {recur : List Nat → List (List Nat) → Option Int}
    {data : List Nat} {keys : List (List Nat)} {i strEnd vo : Nat} {esc : Bool} {K L : Int}
    (hb : data.get? i = some 34)
    (hse : stringEnd (data.drop (i + 1)) = (some strEnd, esc))
    (hnt : nextToken (data.drop (i + 1 + strEnd)) = some vo)
    (hcond : (data.getD (i + 1 + strEnd + vo) 0 == 58 && (K == L - 1)) = false) :
    skRun recur data keys i K L = skRun recur data keys (i + 1 + strEnd + vo) K L := by
  have hi : i < data.length := lt_length_of_getElem? (by rw [← get?_eq_getElem?]; exact hb)
  have hsub : data.length - i = (data.length - (i + 1)) + 1 := by omega
  rw [skRun, hsub, searchKeysGo, hb]
  simp only [show ((34 : Nat) == 34) = true from rfl, if_true, hse, hnt, hcond,
    Bool.false_eq_true, if_false]
  exact searchKeysGo_eq_skRun (by omega)

theorem sk_step_key_mismatch {recur : List Nat → List (List Nat) → Option Int}
    {data : List Nat} {keys : List (List Nat)} {i strEnd vo : Nat} {K L : Int}
    (hb : data.get? i = some 34)
    (hse : stringEnd (data.drop (i + 1)) = (some strEnd, false))
    (hnt : nextToken (data.drop (i + 1 + strEnd)) = some vo)
    (hcolon : (data.getD (i + 1 + strEnd + vo) 0 == 58 && (K == L - 1)) = true)
    (hbound : (decide (L - 1 < 0) ||
      decide ((((keys.length : Nat)) : Int) ≤ L - 1)) = false)
    (hne : equalStr (extract data (i + 1) (i + 1 + strEnd - 1))
      (keys.getD (L - 1).toNat []) = false) :
    skRun recur data keys i K L = skRun recur data keys (i + 1 + strEnd + vo + 1) K L := by
  have hi : i < data.length := lt_length_of_getElem? (by rw [← get?_eq_getElem?]; exact hb)
  have hsub : data.length - i = (data.length - (i + 1)) + 1 := by omega
  rw [skRun, hsub, searchKeysGo, hb]
  simp only [show ((34 : Nat) == 34) = true from rfl, if_true, hse, hnt, hcolon,
    hbound, Bool.false_eq_true, if_false, hne]
  exact searchKeysGo_eq_skRun (by omega)

theorem sk_step_key_match {recur : List Nat → List (List Nat) → Option Int}
    {data : List Nat} {keys : List (List Nat)} {i strEnd vo : Nat} {K L : Int}
    (hb : data.get? i = some 34)
    (hse : stringEnd (data.drop (i + 1)) = (some strEnd, false))
    (hnt : nextToken (data.drop (i + 1 + strEnd)) = some vo)
    (hcolon : (data.getD (i + 1 + strEnd + vo) 0 == 58 && (K == L - 1)) = true)
    (hbound : (decide (L - 1 < 0) ||
      decide ((((keys.length : Nat)) : Int) ≤ L - 1)) = false)
    (heq : equalStr (extract data (i + 1) (i + 1 + strEnd - 1))
      (keys.getD (L - 1).toNat []) = true)
    (hfull : ((K + 1) == (((keys.length : Nat)) : Int)) = false) :
    skRun recur data keys i K L = skRun recur data keys (i + 1 + strEnd + vo + 1) (K + 1) L := by
  have hi : i < data.length := lt_length_of_getElem? (by rw [← get?_eq_getElem?]; exact hb)
  have hsub : data.length - i = (data.length - (i + 1)) + 1 := by omega
  rw [skRun, hsub, searchKeysGo, hb]
  simp only [show ((34 : Nat) == 34) = true from rfl, if_true, hse, hnt, hcolon,
    hbound, Bool.false_eq_true, if_false, heq, hfull]
  exact searchKeysGo_eq_skRun (by omega)

/-! ## searchKeys scanning of serialized values -/

theorem sk_skip_plain {recur : List Nat → List (List Nat) → Option Int}
    {keys : List (List Nat)} :
    ∀ (bs data rest : List Nat) (i : Nat) (K L : Int),
      (∀ b ∈ bs, plainB b = true) →
      data.drop i = bs ++ rest →
      skRun recur data keys i K L = skRun recur data keys (i + bs.length) K L := by
  intro bs
  induction bs with
  | nil => intro data rest i K L _ _; rfl
  | cons b bs ih =>
    intro data rest i K L hpl hd
    obtain ⟨h34, _, h123, h125, h91, _, _, _, _⟩ := plainB_facts (hpl b (by simp))
    rw [sk_step_default (get?_of_drop (by simpa using hd)) h34 h123 h125 h91,
      ih data rest (i + 1) K L (fun d hd' => hpl d (by simp [hd']))
        (drop_succ_of_drop (by simpa using hd))]
    congr 1
    simp
    omega

mutual

theorem skInertV (v : Jv) : ∀ (recur : List Nat → List (List Nat) → Option Int)
    (data rest : List Nat) (keys : List (List Nat)) (i : Nat) (K L : Int),
    wfJ v = true →
    data.drop i = ser v ++ rest →
    (∃ b t, rest = b :: t ∧ (b = 44 ∨ b = 125 ∨ b = 93)) →
    K + 1 ≤ L →
    skRun recur data keys i K L = skRun recur data keys (i + (ser v).length) K L := by
  intro recur data rest keys i K L hwf hd hrest hKL
  cases v with
  | scal bs =>
    rw [wfJ] at hwf
    exact sk_skip_plain bs data rest i K L (scalOKB_plain hwf) (by simpa [ser] using hd)
  | str bs =>
    rw [wfJ] at hwf
    obtain ⟨b, t, hbt, hb⟩ := hrest
    have hd' : data.drop i = 34 :: (bs ++ 34 :: rest) := by
      rw [hd]; simp [ser]
    have hdrop1 : data.drop (i + 1) = bs ++ 34 :: rest := drop_succ_of_drop hd'
    have hse : stringEnd (data.drop (i + 1)) = (some (bs.length + 1), false) := by
      rw [hdrop1, stringEnd_plain hwf]
    have hdrop2 : data.drop (i + 1 + (bs.length + 1)) = rest := by
      have h1 : data.drop (i + 1 + bs.length) = 34 :: rest := drop_append_of_drop hdrop1
      have h2 := drop_succ_of_drop h1
      rw [show i + 1 + (bs.length + 1) = i + 1 + bs.length + 1 from by omega]
      exact h2
    have hnt : nextToken (data.drop (i + 1 + (bs.length + 1))) = some 0 := by
      rw [hdrop2, hbt]
      exact nextToken_cons (by rcases hb with rfl | rfl | rfl <;> rfl)
    have hgd : data.getD (i + 1 + (bs.length + 1) + 0) 0 = b := by
      rw [Nat.add_zero]
      apply getD_of_getElem?
      apply getElem?_of_drop
      rw [hdrop2, hbt]
    have hcond : (data.getD (i + 1 + (bs.length + 1) + 0) 0 == 58 && (K == L - 1)) = false := by
      rw [hgd, show (b == 58) = false from by rcases hb with rfl | rfl | rfl <;> rfl,
        Bool.false_and]
    rw [sk_step_string_else (get?_of_drop hd') hse hnt hcond]
    congr 1
    simp [ser]
    omega
  | arr els =>
    rw [wfJ] at hwf
    have hd' : data.drop i = 91 :: (serEls els ++ 93 :: rest) := by
      rw [hd]; simp [ser]
    have hbe : blockEnd (data.drop i) 91 93 = some (ser (Jv.arr els)).length := by
      rw [hd]
      exact blockEnd_ser_arr els rest hwf
    exact sk_step_arr_skip (get?_of_drop hd') (by omega) hbe
  | obj mems =>
    rw [wfJ] at hwf
    have hd' : data.drop i = 123 :: (serMems mems ++ 125 :: rest) := by
      rw [hd]; simp [ser]
    have hdrop1 : data.drop (i + 1) = serMems mems ++ 125 :: rest := drop_succ_of_drop hd'
    have hdropE : data.drop (i + 1 + (serMems mems).length) = 125 :: rest :=
      drop_append_of_drop hdrop1
    rw [sk_step_open (get?_of_drop hd'),
      skInertMems mems recur data (125 :: rest) keys (i + 1) K (L + 1) hwf hdrop1
        ⟨rest, rfl⟩ (by omega),
      sk_step_close_keep (get?_of_drop hdropE) (by omega)]
    rw [show L + 1 - 1 = L from by omega]
    congr 1
    simp [ser]
    omega

theorem skInertMems (mems : List (List Nat × Jv)) :
    ∀ (recur : List Nat → List (List Nat) → Option Int)
    (data rest : List Nat) (keys : List (List Nat)) (i : Nat) (K M : Int),
    wfMems mems = true →
    data.drop i = serMems mems ++ rest →
    (∃ t, rest = 125 :: t) →
    K + 2 ≤ M →
    skRun recur data keys i K M = skRun recur data keys (i + (serMems mems).length) K M := by
  intro recur data rest keys i K M hwf hd hrest hKM
  cases mems with
  | nil => simp [serMems]
  | cons kv tl =>
    obtain ⟨k, v⟩ := kv
    rw [wfMems, Bool.and_eq_true, Bool.and_eq_true] at hwf
    obtain ⟨⟨hk, hv⟩, htl⟩ := hwf
    have hmain : ∀ after : List Nat,
        data.drop i = (34 :: (k ++ [34, 58]) ++ ser v) ++ after →
        (∃ b t, after = b :: t ∧ (b = 44 ∨ b = 125 ∨ b = 93)) →
        skRun recur data keys i K M =
          skRun recur data keys (i + (k.length + 3 + (ser v).length)) K M := by
      intro after hda hafter
      have hd' : data.drop i = 34 :: (k ++ 34 :: 58 :: (ser v ++ after)) := by
        rw [hda]; simp
      have hdrop1 : data.drop (i + 1) = k ++ 34 :: (58 :: (ser v ++ after)) :=
        drop_succ_of_drop hd'
      have hse : stringEnd (data.drop (i + 1)) = (some (k.length + 1), false) := by
        rw [hdrop1, stringEnd_plain hk]
      have hdrop2 : data.drop (i + 1 + (k.length + 1)) = 58 :: (ser v ++ after) := by
        have h1 : data.drop (i + 1 + k.length) = 34 :: (58 :: (ser v ++ after)) := by
          have := drop_append_of_drop hdrop1
          simpa using this
        have h2 := drop_succ_of_drop h1
        rw [show i + 1 + (k.length + 1) = i + 1 + k.length + 1 from by omega]
        exact h2
      have hnt : nextToken (data.drop (i + 1 + (k.length + 1))) = some 0 := by
        rw [hdrop2]
        exact nextToken_cons (by rfl)
      have hgd : data.getD (i + 1 + (k.length + 1) + 0) 0 = 58 := by
        rw [Nat.add_zero]
        exact getD_of_getElem? (getElem?_of_drop hdrop2)
      have hcond : (data.getD (i + 1 + (k.length + 1) + 0) 0 == 58 && (K == M - 1)) =
          false := by
        rw [hgd, show (K == M - 1) = false from beq_eq_false_iff_ne.mpr (by omega),
          Bool.and_false]
      rw [sk_step_string_else (get?_of_drop hd') hse hnt hcond]
      have hdrop2' : data.drop (i + 1 + (k.length + 1) + 0) = 58 :: (ser v ++ after) := by
        rw [Nat.add_zero]
        exact hdrop2
      rw [sk_step_default (get?_of_drop hdrop2') (by omega) (by omega) (by omega) (by omega)]
      have hdrop3 : data.drop (i + 1 + (k.length + 1) + 0 + 1) = ser v ++ after :=
        drop_succ_of_drop hdrop2'
      rw [skInertV v recur data after keys (i + 1 + (k.length + 1) + 0 + 1) K M hv hdrop3
        hafter (by omega)]
      congr 1
      omega
    cases tl with
    | nil =>
      obtain ⟨t, hrt⟩ := hrest
      have hda : data.drop i = (34 :: (k ++ [34, 58]) ++ ser v) ++ rest := by
        rw [show serMems [(k, v)] = 34 :: (k ++ [34, 58]) ++ ser v from rfl] at hd
        exact hd
      rw [hmain rest hda ⟨125, t, hrt, Or.inr (Or.inl rfl)⟩]
      congr 1
      simp [serMems]
      omega
    | cons m tl2 =>
      rw [show serMems ((k, v) :: m :: tl2) =
        (34 :: (k ++ [34, 58]) ++ ser v) ++ 44 :: serMems (m :: tl2) from rfl] at hd
      have hda : data.drop i =
          (34 :: (k ++ [34, 58]) ++ ser v) ++ (44 :: (serMems (m :: tl2) ++ rest)) := by
        rw [hd]; simp
      rw [hmain (44 :: (serMems (m :: tl2) ++ rest)) hda
        ⟨44, serMems (m :: tl2) ++ rest, rfl, Or.inl rfl⟩]
      have hd2 : data.drop (i + (k.length + 3 + (ser v).length)) =
          44 :: (serMems (m :: tl2) ++ rest) := by
        have := drop_append_of_drop hda
        have harr : i + (34 :: (k ++ [34, 58]) ++ ser v).length =
            i + (k.length + 3 + (ser v).length) := by simp; omega
        rw [harr] at this
        exact this
      rw [sk_step_default (get?_of_drop hd2) (by omega) (by omega) (by omega) (by omega)]
      have hd3 : data.drop (i + (k.length + 3 + (ser v).length) + 1) =
          serMems (m :: tl2) ++ rest := drop_succ_of_drop hd2
      rw [skInertMems (m :: tl2) recur data rest keys
        (i + (k.length + 3 + (ser v).length) + 1) K M htl hd3 hrest hKM]
      congr 1
      simp [serMems]
      omega

end

/-- Scanning serialized members at exactly the matched depth (mode 2): every
key is compared with the current path segment and fails, so position advances
across all members with the counters unchanged. -/
theorem skMems2 (mems : List (List Nat × Jv)) :
    ∀ (recur : List Nat → List (List Nat) → Option Int)
    (data rest : List Nat) (keys : List (List Nat)) (i : Nat) (K L : Int),
    wfMems mems = true →
    data.drop i = serMems mems ++ rest →
    (∃ t, rest = 125 :: t) →
    K = L - 1 →
    (decide (L - 1 < 0) || decide ((((keys.length : Nat)) : Int) ≤ L - 1)) = false →
    (∀ kv ∈ mems, equalStr kv.1 (keys.getD (L - 1).toNat []) = false) →
    skRun recur data keys i K L = skRun recur data keys (i + (serMems mems).length) K L := by
  intro recur data rest keys i K L hwf hd hrest hKL hbound hkeys
  induction mems generalizing i with
  | nil => simp [serMems]
  | cons kv tl ih =>
    obtain ⟨k, v⟩ := kv
    rw [wfMems, Bool.and_eq_true, Bool.and_eq_true] at hwf
    obtain ⟨⟨hk, hv⟩, htl⟩ := hwf
    have hkne := hkeys (k, v) (by simp)
    have hmain : ∀ after : List Nat,
        data.drop i = (34 :: (k ++ [34, 58]) ++ ser v) ++ after →
        (∃ b t, after = b :: t ∧ (b = 44 ∨ b = 125 ∨ b = 93)) →
        skRun recur data keys i K L =
          skRun recur data keys (i + (k.length + 3 + (ser v).length)) K L := by
      intro after hda hafter
      have hd' : data.drop i = 34 :: (k ++ 34 :: 58 :: (ser v ++ after)) := by
        rw [hda]; simp
      have hdrop1 : data.drop (i + 1) = k ++ 34 :: (58 :: (ser v ++ after)) :=
        drop_succ_of_drop hd'
      have hse : stringEnd (data.drop (i + 1)) = (some (k.length + 1), false) := by
        rw [hdrop1, stringEnd_plain hk]
      have hdrop2 : data.drop (i + 1 + (k.length + 1)) = 58 :: (ser v ++ after) := by
        have h1 : data.drop (i + 1 + k.length) = 34 :: (58 :: (ser v ++ after)) := by
          have := drop_append_of_drop hdrop1
          simpa using this
        have h2 := drop_succ_of_drop h1
        rw [show i + 1 + (k.length + 1) = i + 1 + k.length + 1 from by omega]
        exact h2
      have hnt : nextToken (data.drop (i + 1 + (k.length + 1))) = some 0 := by
        rw [hdrop2]
        exact nextToken_cons (by rfl)
      have hgd : data.getD (i + 1 + (k.length + 1) + 0) 0 = 58 := by
        rw [Nat.add_zero]
        exact getD_of_getElem? (getElem?_of_drop hdrop2)
      have hcolon : (data.getD (i + 1 + (k.length + 1) + 0) 0 == 58 && (K == L - 1)) =
          true := by
        rw [hgd, show (K == L - 1) = true from by simp [hKL], Bool.and_true]
        rfl
      have hkx : extract data (i + 1) (i + 1 + (k.length + 1) - 1) = k := by
        rw [extract, hdrop1, show i + 1 + (k.length + 1) - 1 - (i + 1) = k.length
          from by omega]
        exact List.take_left k (34 :: (58 :: (ser v ++ after)))
      have hne : equalStr (extract data (i + 1) (i + 1 + (k.length + 1) - 1))
          (keys.getD (L - 1).toNat []) = false := by
        rw [hkx]
        exact hkne
      rw [sk_step_key_mismatch (get?_of_drop hd') hse hnt hcolon hbound hne]
      have hdrop3 : data.drop (i + 1 + (k.length + 1) + 0 + 1) = ser v ++ after := by
        rw [Nat.add_zero]
        exact drop_succ_of_drop hdrop2
      rw [skInertV v recur data after keys (i + 1 + (k.length + 1) + 0 + 1) K L hv hdrop3
        hafter (by omega)]
      congr 1
      omega
    cases tl with
    | nil =>
      obtain ⟨t, hrt⟩ := hrest
      have hda : data.drop i = (34 :: (k ++ [34, 58]) ++ ser v) ++ rest := by
        rw [show serMems [(k, v)] = 34 :: (k ++ [34, 58]) ++ ser v from rfl] at hd
        exact hd
      rw [hmain rest hda ⟨125, t, hrt, Or.inr (Or.inl rfl)⟩]
      congr 1
      simp [serMems]
      omega
    | cons m tl2 =>
      rw [show serMems ((k, v) :: m :: tl2) =
        (34 :: (k ++ [34, 58]) ++ ser v) ++ 44 :: serMems (m :: tl2) from rfl] at hd
      have hda : data.drop i =
          (34 :: (k ++ [34, 58]) ++ ser v) ++ (44 :: (serMems (m :: tl2) ++ rest)) := by
        rw [hd]; simp
      rw [hmain (44 :: (serMems (m :: tl2) ++ rest)) hda
        ⟨44, serMems (m :: tl2) ++ rest, rfl, Or.inl rfl⟩]
      have hd2 : data.drop (i + (k.length + 3 + (ser v).length)) =
          44 :: (serMems (m :: tl2) ++ rest) := by
        have := drop_append_of_drop hda
        have harr : i + (34 :: (k ++ [34, 58]) ++ ser v).length =
            i + (k.length + 3 + (ser v).length) := by simp; omega
        rw [harr] at this
        exact this
      rw [sk_step_default (get?_of_drop hd2) (by omega) (by omega) (by omega) (by omega)]
      have hd3 : data.drop (i + (k.length + 3 + (ser v).length) + 1) =
          serMems (m :: tl2) ++ rest := drop_succ_of_drop hd2
      rw [ih (i + (k.length + 3 + (ser v).length) + 1) htl hd3
        (fun kv hkv => hkeys kv (by simp [hkv]))]
      congr 1
      simp [serMems]
      omega

/-- The C3 scope-reset mechanism in isolation: a serialized object scanned
with the match counter equal to the depth is traversed without matching (all
member keys differ from the current segment), and the closing brace
decrements the match counter together with the depth. -/
theorem skObjMode2 (mems : List (List Nat × Jv))
    (recur : List Nat → List (List Nat) → Option Int)
    (data rest : List Nat) (keys : List (List Nat)) (i : Nat) (K L : Int)
    (hwf : wfMems mems = true)
    (hd : data.drop i = ser (Jv.obj mems) ++ rest)
    (hKL : K = L)
    (hbound : (decide (L < 0) || decide ((((keys.length : Nat)) : Int) ≤ L)) = false)
    (hkeys : ∀ kv ∈ mems, equalStr kv.1 (keys.getD L.toNat []) = false) :
    skRun recur data keys i K L =
      skRun recur data keys (i + (ser (Jv.obj mems)).length) (K - 1) L := by
  have hd' : data.drop i = 123 :: (serMems mems ++ 125 :: rest) := by
    rw [hd]; simp [ser]
  have hdrop1 : data.drop (i + 1) = serMems mems ++ 125 :: rest := drop_succ_of_drop hd'
  have hdropE : data.drop (i + 1 + (serMems mems).length) = 125 :: rest :=
    drop_append_of_drop hdrop1
  have hb2 : (decide (L + 1 - 1 < 0) ||
      decide ((((keys.length : Nat)) : Int) ≤ L + 1 - 1)) = false := by
    rw [show (L + 1 - 1 : Int) = L from by omega]
    exact hbound
  have hkeys2 : ∀ kv ∈ mems, equalStr kv.1 (keys.getD (L + 1 - 1).toNat []) = false := by
    intro kv hkv
    rw [show (L + 1 - 1 : Int) = L from by omega]
    exact hkeys kv hkv
  rw [sk_step_open (get?_of_drop hd'),
    skMems2 mems recur data (125 :: rest) keys (i + 1) K (L + 1) hwf hdrop1 ⟨rest, rfl⟩
      (by omega) hb2 hkeys2,
    sk_step_close_dec (get?_of_drop hdropE) (by omega)]
  rw [show (L + 1 - 1 : Int) = L from by omega]
  congr 1
  simp [ser]
  omega

/-- C3: on '}' searchKeys decrements the depth and, when the decremented depth
equals the match counter, decrements the match counter too, so the path
segment matched inside a closed object does not leak into a later sibling: on
every document of the form a-object-then-b-object-containing-x, with the first
object free of the member key x, the path a.x resolves to -1 rather than to
the offset of the sibling's x value. -/
theorem searchKeys_sibling_scope_reset (mems : List (List Nat × Jv)) (V : Jv)
    (hwfm : wfMems mems = true) (hwfV : wfJ V = true)
    (hnx : ∀ kv ∈ mems, kv.1 ≠ [120]) :
    searchKeys
      ([123, 34, 97, 34, 58] ++ (ser (Jv.obj mems) ++
        ([44, 34, 98, 34, 58, 123, 34, 120, 34, 58] ++ (ser V ++ [125, 125]))))
      [[97], [120]] = some (-1) := by
  set data := [123, 34, 97, 34, 58] ++ (ser (Jv.obj mems) ++
    ([44, 34, 98, 34, 58, 123, 34, 120, 34, 58] ++ (ser V ++ [125, 125]))) with hdata
  rw [searchKeys, searchKeysD, if_neg (by decide), searchKeysGo_eq_skRun (by omega)]
  have hg0 : data.get? 0 = some 123 := by rw [hdata]; rfl
  rw [sk_step_open hg0, show (0 : Nat) + 1 = 1 from rfl,
    show ((0 : Int) + 1) = (1 : Int) from rfl]
  have hdA : data.drop (1 + 1) = [97] ++ 34 :: (58 :: (ser (Jv.obj mems) ++
      ([44, 34, 98, 34, 58, 123, 34, 120, 34, 58] ++ (ser V ++ [125, 125])))) := by
    rw [hdata]
    rfl
  have hgA : data.get? 1 = some 34 := by rw [hdata]; rfl
  have hseA : stringEnd (data.drop (1 + 1)) = (some 2, false) := by
    rw [hdA]
    exact stringEnd_plain (by decide)
  have hdB : data.drop (1 + 1 + 2) = 58 :: (ser (Jv.obj mems) ++
      ([44, 34, 98, 34, 58, 123, 34, 120, 34, 58] ++ (ser V ++ [125, 125]))) := by
    rw [hdata]
    rfl
  have hntA : nextToken (data.drop (1 + 1 + 2)) = some 0 := by
    rw [hdB]
    exact nextToken_cons (by rfl)
  have hgdA : data.getD (1 + 1 + 2 + 0) 0 = 58 :=
    getD_of_getElem? (getElem?_of_drop hdB)
  have hcolA : (data.getD (1 + 1 + 2 + 0) 0 == 58 && ((0 : Int) == 1 - 1)) = true := by
    rw [hgdA]
    decide
  have hbdA : (decide ((1 - 1 : Int) < 0) ||
      decide (((([[97], [120]] : List (List Nat)).length : Nat) : Int) ≤ 1 - 1)) = false := by
    decide
  have hexA : extract data (1 + 1) (1 + 1 + 2 - 1) = [97] := by
    rw [extract, hdA, show (1 : Nat) + 1 + 2 - 1 - (1 + 1) = 1 from rfl]
    rfl
  have heqA : equalStr (extract data (1 + 1) (1 + 1 + 2 - 1))
      (([[97], [120]] : List (List Nat)).getD ((1 - 1 : Int)).toNat []) = true := by
    rw [hexA]
    decide
  have hfulA : (((0 : Int) + 1) ==
      ((([[97], [120]] : List (List Nat)).length : Nat) : Int)) = false := by decide
  rw [sk_step_key_match hgA hseA hntA hcolA hbdA heqA hfulA,
    show (1 : Nat) + 1 + 2 + 0 + 1 = 5 from rfl,
    show ((0 : Int) + 1) = (1 : Int) from rfl]
  have hd5 : data.drop 5 = ser (Jv.obj mems) ++
      ([44, 34, 98, 34, 58, 123, 34, 120, 34, 58] ++ (ser V ++ [125, 125])) := by
    rw [hdata, show (5 : Nat) = ([123, 34, 97, 34, 58] : List Nat).length from rfl,
      List.drop_left]
  have hkeysO : ∀ kv ∈ mems, equalStr kv.1
      (([[97], [120]] : List (List Nat)).getD ((1 : Int)).toNat []) = false := by
    intro kv hkv
    rw [show (([[97], [120]] : List (List Nat)).getD ((1 : Int)).toNat []) = [120] from rfl,
      equalStr]
    exact beq_eq_false_iff_ne.mpr (hnx kv hkv)
  rw [skObjMode2 mems _ data _ [[97], [120]] 5 1 1 hwfm hd5 rfl (by decide) hkeysO,
    show ((1 : Int) - 1) = (0 : Int) from rfl]
  have hdp : data.drop (5 + (ser (Jv.obj mems)).length) =
      44 :: (34 :: (98 :: (34 :: (58 :: (123 :: (34 :: (120 :: (34 :: (58 ::
        (ser V ++ [125, 125])))))))))) := by
    have h1 := drop_append_of_drop hd5
    simpa using h1
  rw [sk_step_default (get?_of_drop hdp) (by omega) (by omega) (by omega) (by omega)]
  have e1 := drop_succ_of_drop hdp
  have hgB : data.get? (5 + (ser (Jv.obj mems)).length + 1) = some 34 := get?_of_drop e1
  have e2 : data.drop (5 + (ser (Jv.obj mems)).length + 1 + 1) =
      [98] ++ 34 :: (58 :: (123 :: (34 :: (120 :: (34 :: (58 ::
        (ser V ++ [125, 125]))))))) := drop_succ_of_drop e1
  have hseB : stringEnd (data.drop (5 + (ser (Jv.obj mems)).length + 1 + 1)) =
      (some 2, false) := by
    rw [e2]
    exact stringEnd_plain (by decide)
  have e3 : data.drop (5 + (ser (Jv.obj mems)).length + 1 + 1 + 1) =
      34 :: (58 :: (123 :: (34 :: (120 :: (34 :: (58 :: (ser V ++ [125, 125]))))))) :=
    drop_succ_of_drop e2
  have e4 : data.drop (5 + (ser (Jv.obj mems)).length + 1 + 1 + 2) =
      58 :: (123 :: (34 :: (120 :: (34 :: (58 :: (ser V ++ [125, 125])))))) := by
    rw [show 5 + (ser (Jv.obj mems)).length + 1 + 1 + 2 =
      5 + (ser (Jv.obj mems)).length + 1 + 1 + 1 + 1 from by omega]
    exact drop_succ_of_drop e3
  have hntB : nextToken (data.drop (5 + (ser (Jv.obj mems)).length + 1 + 1 + 2)) =
      some 0 := by
    rw [e4]
    exact nextToken_cons (by rfl)
  have hgdB : data.getD (5 + (ser (Jv.obj mems)).length + 1 + 1 + 2 + 0) 0 = 58 :=
    getD_of_getElem? (getElem?_of_drop e4)
  have hcolB : (data.getD (5 + (ser (Jv.obj mems)).length + 1 + 1 + 2 + 0) 0 == 58 &&
      ((0 : Int) == 1 - 1)) = true := by
    rw [hgdB]
    decide
  have hexB : extract data (5 + (ser (Jv.obj mems)).length + 1 + 1)
      (5 + (ser (Jv.obj mems)).length + 1 + 1 + 2 - 1) = [98] := by
    rw [extract, e2, show 5 + (ser (Jv.obj mems)).length + 1 + 1 + 2 - 1 -
      (5 + (ser (Jv.obj mems)).length + 1 + 1) = 1 from by omega]
    rfl
  have hneB : equalStr (extract data (5 + (ser (Jv.obj mems)).length + 1 + 1)
      (5 + (ser (Jv.obj mems)).length + 1 + 1 + 2 - 1))
      (([[97], [120]] : List (List Nat)).getD ((1 - 1 : Int)).toNat []) = false := by
    rw [hexB]
    decide
  rw [sk_step_key_mismatch hgB hseB hntB hcolB hbdA hneB,
    show 5 + (ser (Jv.obj mems)).length + 1 + 1 + 2 + 0 + 1 =
      5 + (ser (Jv.obj mems)).length + 5 from by omega]
  have e5 : data.drop (5 + (ser (Jv.obj mems)).length + 5) =
      123 :: (34 :: (120 :: (34 :: (58 :: (ser V ++ [125, 125]))))) := by
    rw [show 5 + (ser (Jv.obj mems)).length + 5 =
      5 + (ser (Jv.obj mems)).length + 1 + 1 + 2 + 1 from by omega]
    exact drop_succ_of_drop e4
  rw [sk_step_open (get?_of_drop e5),
    show 5 + (ser (Jv.obj mems)).length + 5 + 1 = 5 + (ser (Jv.obj mems)).length + 6
      from by omega,
    show ((1 : Int) + 1) = (2 : Int) from rfl]
  have e6 : data.drop (5 + (ser (Jv.obj mems)).length + 6) =
      34 :: (120 :: (34 :: (58 :: (ser V ++ [125, 125])))) := by
    rw [show 5 + (ser (Jv.obj mems)).length + 6 =
      5 + (ser (Jv.obj mems)).length + 5 + 1 from by omega]
    exact drop_succ_of_drop e5
  have e7 : data.drop (5 + (ser (Jv.obj mems)).length + 6 + 1) =
      [120] ++ 34 :: (58 :: (ser V ++ [125, 125])) := drop_succ_of_drop e6
  have hseC : stringEnd (data.drop (5 + (ser (Jv.obj mems)).length + 6 + 1)) =
      (some 2, false) := by
    rw [e7]
    exact stringEnd_plain (by decide)
  have e8 : data.drop (5 + (ser (Jv.obj mems)).length + 6 + 1 + 1) =
      34 :: (58 :: (ser V ++ [125, 125])) := drop_succ_of_drop e7
  have e9 : data.drop (5 + (ser (Jv.obj mems)).length + 6 + 1 + 2) =
      58 :: (ser V ++ [125, 125]) := by
    rw [show 5 + (ser (Jv.obj mems)).length + 6 + 1 + 2 =
      5 + (ser (Jv.obj mems)).length + 6 + 1 + 1 + 1 from by omega]
    exact drop_succ_of_drop e8
  have hntC : nextToken (data.drop (5 + (ser (Jv.obj mems)).length + 6 + 1 + 2)) =
      some 0 := by
    rw [e9]
    exact nextToken_cons (by rfl)
  have hgdC : data.getD (5 + (ser (Jv.obj mems)).length + 6 + 1 + 2 + 0) 0 = 58 :=
    getD_of_getElem? (getElem?_of_drop e9)
  have hcondC : (data.getD (5 + (ser (Jv.obj mems)).length + 6 + 1 + 2 + 0) 0 == 58 &&
      ((0 : Int) == 2 - 1)) = false := by
    rw [hgdC]
    decide
  rw [sk_step_string_else (get?_of_drop e6) hseC hntC hcondC,
    show 5 + (ser (Jv.obj mems)).length + 6 + 1 + 2 + 0 =
      5 + (ser (Jv.obj mems)).length + 9 from by omega]
  have e9' : data.drop (5 + (ser (Jv.obj mems)).length + 9) =
      58 :: (ser V ++ [125, 125]) := by
    rw [show 5 + (ser (Jv.obj mems)).length + 9 =
      5 + (ser (Jv.obj mems)).length + 6 + 1 + 2 from by omega]
    exact e9
  rw [sk_step_default (get?_of_drop e9') (by omega) (by omega) (by omega) (by omega),
    show 5 + (ser (Jv.obj mems)).length + 9 + 1 = 5 + (ser (Jv.obj mems)).length + 10
      from by omega]
  have e10 : data.drop (5 + (ser (Jv.obj mems)).length + 10) = ser V ++ [125, 125] := by
    rw [show 5 + (ser (Jv.obj mems)).length + 10 =
      5 + (ser (Jv.obj mems)).length + 9 + 1 from by omega]
    exact drop_succ_of_drop e9'
  rw [skInertV V _ data [125, 125] [[97], [120]] (5 + (ser (Jv.obj mems)).length + 10)
    0 2 hwfV e10 ⟨125, [125], rfl, Or.inr (Or.inl rfl)⟩ (by omega)]
  have e11 : data.drop (5 + (ser (Jv.obj mems)).length + 10 + (ser V).length) =
      125 :: [125] := drop_append_of_drop e10
  rw [sk_step_close_keep (get?_of_drop e11) (by omega),
    show ((2 : Int) - 1) = (1 : Int) from rfl]
  have e12 : data.drop (5 + (ser (Jv.obj mems)).length + 10 + (ser V).length + 1) =
      125 :: [] := drop_succ_of_drop e11
  rw [sk_step_close_dec (get?_of_drop e12) (by decide)]
  rw [skRun_end (by rw [hdata]; simp; omega)]

/-- Closed instance of C3 on the document with first object containing only
the member k:1 and sibling b-object holding x:2. -/
theorem searchKeys_sibling_scope_reset_witness :
    wfMems [([107], Jv.scal [49])] = true ∧ wfJ (Jv.scal [50]) = true ∧
    (∀ kv ∈ [([107], Jv.scal [49])], kv.1 ≠ [120]) ∧
    searchKeys
      [123, 34, 97, 34, 58, 123, 34, 107, 34, 58, 49, 125,
       44, 34, 98, 34, 58, 123, 34, 120, 34, 58, 50, 125, 125]
      [[97], [120]] = some (-1) := by
  refine ⟨by decide, by decide, by decide, ?_⟩
  exact searchKeys_sibling_scope_reset [([107], Jv.scal [49])] (Jv.scal [50])
    (by decide) (by decide) (by decide)

end JsonParser
